import Mathlib

/-!
Verification of the `liner` line-editor core (editor state machine, Vi keymap,
redraw planner) against its natural-language specification.

Definitions are shallow embeddings of `src/editor.rs` and `src/keymap/vi.rs`.
External collaborators (the `Buffer` datatype, the history, the completer and
the word divider) are referenced by contract only in the source; here they are
either modelled from the spec's contract or passed in as oracle parameters so
that theorems quantify over every possible external behaviour.
-/

namespace Liner

/-! ## Word-position classifier (`CursorPosition`, editor.rs lines 43-88) -/

/-- The position of the cursor relative to words in the buffer
(editor.rs `enum CursorPosition`). -/
inductive CursorPosition where
  | InWord (i : Nat)
  | OnWordLeftEdge (i : Nat)
  | OnWordRightEdge (i : Nat)
  | InSpace (l r : Option Nat)
deriving DecidableEq, Repr

namespace CursorPosition

/-- The scan loop of `CursorPosition::get` (editor.rs lines 74-86), with `i`
the absolute index of the head of `ws`.  On exhaustion the Rust code returns
`InSpace(Some(words.len() - 1), None)`; at that point `i` is the length. -/
def getLoop (cursor : Nat) : Nat → List (Nat × Nat) → CursorPosition
  | i, [] => .InSpace (some (i - 1)) none
  | i, (s, e) :: rest =>
    if s = cursor then .OnWordLeftEdge i
    else if e = cursor then .OnWordRightEdge i
    else if s < cursor ∧ cursor < e then .InWord i
    else if cursor < s then .InSpace (some (i - 1)) (some i)
    else getLoop cursor (i + 1) rest

/-- `CursorPosition::get` (editor.rs lines 63-87). -/
def get (cursor : Nat) (words : List (Nat × Nat)) : CursorPosition :=
  match words with
  | [] => .InSpace none none
  | (s0, _) :: _ =>
    if cursor = s0 then .OnWordLeftEdge 0
    else if cursor < s0 then .InSpace none (some 0)
    else getLoop cursor 0 words

end CursorPosition

/-- The word spans are in ascending, non-overlapping order: each span has
`start ≤ end` and each end is at most the next start. -/
def spansOrdered : List (Nat × Nat) → Bool
  | [] => true
  | [(s, e)] => s ≤ e
  | (s, e) :: (s', e') :: rest => s ≤ e && e ≤ s' && spansOrdered ((s', e') :: rest)

/-- Modelled from the spec: scan the spans in order and return the first
matching point classification (`InWord`: `start < c < end`;
`OnWordLeftEdge`: `c = start`; `OnWordRightEdge`: `c = end`), if any. -/
def specScan (c : Nat) : Nat → List (Nat × Nat) → Option CursorPosition
  | _, [] => none
  | i, (s, e) :: rest =>
    if s < c ∧ c < e then some (.InWord i)
    else if c = s then some (.OnWordLeftEdge i)
    else if c = e then some (.OnWordRightEdge i)
    else specScan c (i + 1) rest

/-- Modelled from the spec: the closest word to the left of the cursor, i.e.
the last span index whose end lies strictly before `c`. -/
def nearestLeftWord (c : Nat) : Nat → Option Nat → List (Nat × Nat) → Option Nat
  | _, acc, [] => acc
  | i, acc, (_, e) :: rest =>
    nearestLeftWord c (i + 1) (if e < c then some i else acc) rest

/-- Modelled from the spec: the closest word to the right of the cursor, i.e.
the first span index whose start lies strictly after `c`. -/
def nearestRightWord (c : Nat) : Nat → List (Nat × Nat) → Option Nat
  | _, [] => none
  | i, (s, _) :: rest =>
    if c < s then some i else nearestRightWord c (i + 1) rest

/-- Modelled from the spec (§4.1): the word-position classification, written
from the spec's words: the first matching classification in scan order, and
otherwise `InSpace` of the nearest word indices on each side (either absent
at the ends); an empty span list yields `InSpace(none, none)`. -/
def classifySpec (c : Nat) (words : List (Nat × Nat)) : CursorPosition :=
  match specScan c 0 words with
  | some p => p
  | none => .InSpace (nearestLeftWord c 0 none words) (nearestRightWord c 0 words)

/-! ## Vi count arithmetic (vi.rs) -/

/-- `u32::MAX`, the saturation point of the Vi count. -/
def U32MAX : Nat := 2 ^ 32 - 1

/-- Rust `u32::saturating_mul` on in-range naturals. -/
def satMul (a b : Nat) : Nat := min (a * b) U32MAX

/-- Rust `u32::saturating_add` on in-range naturals. -/
def satAdd (a b : Nat) : Nat := min (a + b) U32MAX

/-- One digit keypress in Vi normal mode (vi.rs lines 416-423):
`count = count.saturating_mul(10).saturating_add(digit)`. -/
def viDigitStep (count digit : Nat) : Nat := satAdd (satMul count 10) digit

/-- The count installed by `.` in Vi normal mode (vi.rs lines 383-390):
`(0,0) => 1`, `(0, last) => last`, `(count, _) => count`. -/
def dotNewCount (count lastCount : Nat) : Nat :=
  if count = 0 then (if lastCount = 0 then 1 else lastCount) else count

/-- The effective count of a Delete/Change movement (vi.rs lines 506-515):
`(0,0) => 0`, `(c,0) => c`, `(0,s) => s`, else `secondary.saturating_mul(count)`. -/
def deleteEffectiveCount (count secondaryCount : Nat) : Nat :=
  if count = 0 then (if secondaryCount = 0 then 0 else secondaryCount)
  else if secondaryCount = 0 then count
  else satMul secondaryCount count

/-! ## Completion grid arithmetic (editor.rs `complete` lines 424-483 and
`print_completion_list` lines 375-415) -/

/-- `max_word_size`: the longest candidate length, at least 1
(`completions.iter().fold(1, |m, x| max(m, x.chars().count()))`). -/
def maxWordSize (completions : List String) : Nat :=
  completions.foldl (fun m x => max m x.length) 1

/-- `cols_items = max(1, w / max_word_size)` (editor.rs line 435). -/
def colsItems (w maxWord : Nat) : Nat := max 1 (w / maxWord)

/-- `col_width = 2 + w / cols_items` (editor.rs line 436). -/
def colWidth (w maxWord : Nat) : Nat := 2 + w / colsItems w maxWord

/-- `cols = max(1, w / col_width)` (editor.rs line 437; `print_completion_list`
computes the same value at line 384): the number of columns the completion
grid is actually rendered in. -/
def colsRendered (w maxWord : Nat) : Nat := max 1 (w / colWidth w maxWord)

/-- `CompleteType` (event.rs, by its use in editor.rs lines 443-471). -/
inductive CompleteType where
  | Next | Prev | Up | Down
deriving DecidableEq, Repr

/-- The new highlight index chosen by `Editor::complete` when a completions
hint is active (editor.rs lines 440-474). `len` is the number of candidates,
`w` the terminal width, `maxWord` the longest candidate length. -/
def nextHighlight (ct : CompleteType) (i : Option Nat) (len w maxWord : Nat) : Nat :=
  match i with
  | none => 0
  | some i =>
    match ct with
    | .Next => if i + 1 ≥ len then 0 else min (i + 1) (len - 1)
    | .Prev => if i = 0 then len - 1 else max (i - 1) 0
    | .Up => if i + 1 < colsItems w maxWord then i else i + 1 - colsItems w maxWord
    | .Down =>
      if i + colsItems w maxWord - 1 > len - 1 then i
      else i + colsItems w maxWord - 1

/-! ## The external `Buffer` datatype

Modelled from the spec: `buffer.rs` is not under `src/`; the spec (§3, §6)
describes the Buffer as an ordered sequence of characters with primitive
edits and undo/redo/revert that report whether an action was performed.
An undo group coalesces the edits performed inside it into one undo step. -/

/-- Modelled from the spec: the external gap-buffer-like `Buffer`
(character sequence plus undo/redo state; `buffer.rs` is not under `src/`). -/
structure Buffer where
  chars : List Char
  undoStack : List (List Char)
  redoStack : List (List Char)
  groupOpen : Bool
deriving DecidableEq, Repr

/-- A fresh empty buffer. -/
def emptyBuffer : Buffer := ⟨[], [], [], false⟩

instance : Inhabited Buffer := ⟨emptyBuffer⟩

namespace Buffer

/-- Modelled from the spec: a mutation records an undo snapshot unless an
undo group is open (grouped edits coalesce into the group's snapshot). -/
def mutate (f : List Char → List Char) (b : Buffer) : Buffer :=
  if b.groupOpen then { b with chars := f b.chars }
  else { b with chars := f b.chars, undoStack := b.chars :: b.undoStack, redoStack := [] }

/-- Modelled from the spec: `start_undo_group`. -/
def startUndoGroup (b : Buffer) : Buffer :=
  if b.groupOpen then b
  else { b with undoStack := b.chars :: b.undoStack, redoStack := [], groupOpen := true }

/-- Modelled from the spec: `end_undo_group`. -/
def endUndoGroup (b : Buffer) : Buffer := { b with groupOpen := false }

/-- `num_chars`. -/
def numChars (b : Buffer) : Nat := b.chars.length

/-- `insert(i, chars)`. -/
def insertAt (i : Nat) (cs : List Char) (b : Buffer) : Buffer :=
  b.mutate fun l => l.take i ++ cs ++ l.drop i

/-- `remove(lo, hi)`: removes the characters in `[lo, hi)` and returns how
many were removed. -/
def removeRange (lo hi : Nat) (b : Buffer) : Nat × Buffer :=
  (min hi b.chars.length - min lo b.chars.length,
   b.mutate fun l => l.take lo ++ l.drop hi)

/-- `truncate(i)`. -/
def truncateAt (i : Nat) (b : Buffer) : Buffer := b.mutate fun l => l.take i

/-- `char_before(i)`: the character just before position `i`, if any. -/
def charBefore (i : Nat) (b : Buffer) : Option Char :=
  if i = 0 then none else b.chars.get? (i - 1)

/-- Modelled from the spec: `copy_buffer(&other)` makes this buffer a copy
of the other's contents. -/
def copyBuffer (other : Buffer) (b : Buffer) : Buffer :=
  b.mutate fun _ => other.chars

/-- Modelled from the spec: `insert_from_buffer(&other)` appends the
suggestion's tail beyond the current contents (§4.2 "appends-from"). -/
def insertFromBuffer (other : Buffer) (b : Buffer) : Buffer :=
  b.mutate fun l => l ++ other.chars.drop l.length

/-- Modelled from the spec: `undo` — restore the previous snapshot and
report `true`, or report `false` when there is no action to undo. -/
def undo (b : Buffer) : Bool × Buffer :=
  match b.undoStack with
  | [] => (false, b)
  | prev :: rest => (true, ⟨prev, rest, b.chars :: b.redoStack, b.groupOpen⟩)

/-- Modelled from the spec: `redo`. -/
def redo (b : Buffer) : Bool × Buffer :=
  match b.redoStack with
  | [] => (false, b)
  | nxt :: rest => (true, ⟨nxt, b.chars :: b.undoStack, rest, b.groupOpen⟩)

/-- Modelled from the spec: `revert` — undo everything back to the original
contents, reporting whether anything was undone. -/
def revert (b : Buffer) : Bool × Buffer :=
  match b.undoStack with
  | [] => (false, b)
  | prev :: rest =>
    (true, ⟨(prev :: rest).getLast (by simp), [], (prev :: rest).dropLast ++ [b.chars], b.groupOpen⟩)

end Buffer

/-! ## Editor state (editor.rs `struct Editor`)

The history's search functions (`search_index`, `get_history_subset`,
`get_newest_match`), the word divider and the terminal width live outside
`src/`; they are oracle parameters, so every theorem below quantifies over
all of their possible behaviours. -/

/-- The external context: history search functions, word divider and
terminal width, referenced by contract only (spec §6). -/
structure Ctx where
  searchIndexFn : List Char → List Nat
  historySubsetFn : List Char → List Nat
  newestMatchFn : Nat → List Char → Option Nat
  wordDividerFn : List Char → List (Nat × Nat)
  terminalWidth : Nat

/-- The fields of editor.rs `struct Editor` that carry editing state
(the output stream, prompt string and `term_cursor_line` bookkeeping are
rendering-only and are not part of this model). -/
structure EdState where
  cursor : Nat
  newBuf : Buffer
  history : List Buffer
  curHistoryLoc : Option Nat
  showCompletionsHint : Option (List String × Option Nat)
  show_autosuggestions : Bool
  noEol : Bool
  noNewline : Bool
  reverseSearch : Bool
  forwardSearch : Bool
  bufferChanged : Bool
  historySubsetIndex : List Nat
  historySubsetLoc : Option Nat
  autosuggestion : Option Buffer
deriving DecidableEq, Repr

namespace EdState

/-- `cur_buf!`: the current buffer — the history entry being edited, or the
new buffer (editor.rs lines 153-160). -/
def curBuf (s : EdState) : Buffer :=
  match s.curHistoryLoc with
  | some i => s.history.getD i emptyBuffer
  | none => s.newBuf

/-- `cur_buf_mut!`: write back the current buffer, marking the buffer
changed (editor.rs lines 138-151). -/
def setCurBuf (b : Buffer) (s : EdState) : EdState :=
  match s.curHistoryLoc with
  | some i => { s with history := s.history.set i b, bufferChanged := true }
  | none => { s with newBuf := b, bufferChanged := true }

/-- `is_search` (editor.rs line 207). -/
def isSearchB (s : EdState) : Bool := s.reverseSearch || s.forwardSearch

/-- `clear_search` (editor.rs lines 211-216). -/
def clearSearch (s : EdState) : EdState :=
  { s with reverseSearch := false, forwardSearch := false,
           historySubsetLoc := none, historySubsetIndex := [] }

/-- `show_autosuggestions()` (editor.rs line 242): despite its name it
reports whether a completions hint is present. -/
def showAutosuggestionsPred (s : EdState) : Bool := s.showCompletionsHint.isSome

/-- `search_history_loc` (editor.rs lines 270-276). -/
def searchHistoryLoc (s : EdState) : Option Nat :=
  if s.historySubsetIndex.length > 0 then
    s.historySubsetLoc.map fun i => s.historySubsetIndex.getD i 0
  else none

/-- The repositioning loop of `refresh_search` (editor.rs lines 288-298):
find the first subset entry at least the previous target and choose a
position from it; `none` when the loop runs out (keep the base position). -/
def refreshScan (forward : Bool) (target : Nat) : Nat → List Nat → Option Nat
  | _, [] => none
  | i, h :: rest =>
    if target ≤ h then some (if forward || target = h || i = 0 then i else i - 1)
    else refreshScan forward target (i + 1) rest

/-- `refresh_search` (editor.rs lines 279-310). -/
def refreshSearch (o : Ctx) (forward : Bool) (s : EdState) : EdState :=
  let target? := searchHistoryLoc s
  let idx := o.searchIndexFn s.newBuf.chars
  let loc :=
    if idx.length > 0 then
      let base := if forward then some 0 else some (idx.length - 1)
      match target? with
      | none => base
      | some target =>
        match refreshScan forward target 0 idx with
        | some l => some l
        | none => base
    else none
  { s with historySubsetIndex := idx, historySubsetLoc := loc,
           reverseSearch := !forward, forwardSearch := forward,
           curHistoryLoc := none, noNewline := true, bufferChanged := false }

/-- `current_autosuggestion` (editor.rs lines 886-902). -/
def currentAutosuggestion (o : Ctx) (s : EdState) : Option Buffer :=
  if isSearchB s then
    (searchHistoryLoc s).map fun i => s.history.getD i emptyBuffer
  else if s.show_autosuggestions then
    match s.curHistoryLoc with
    | some i => some (s.history.getD i emptyBuffer)
    | none => (o.newestMatchFn s.history.length s.newBuf.chars).map fun i =>
        s.history.getD i emptyBuffer
  else none

/-- The state effect of `_display` (editor.rs lines 951-960): clamp the
cursor to the buffer end, and in Vi normal mode (`no_eol`) one before it. -/
def displayRaw (s : EdState) : EdState :=
  let n := (curBuf s).chars.length
  let c := if n < s.cursor then n else s.cursor
  let c := if s.noEol ∧ c ≠ 0 ∧ c = n then c - 1 else c
  { s with cursor := c }

/-- `display` (editor.rs lines 1117-1126): refresh an active incremental
search if the buffer changed, recompute the autosuggestion, then `_display`. -/
def display (o : Ctx) (s : EdState) : EdState :=
  let s := if isSearchB s ∧ s.bufferChanged then refreshSearch o s.forwardSearch s else s
  let s := { s with autosuggestion := currentAutosuggestion o s }
  displayRaw s

/-- `insert_chars_after_cursor` (editor.rs lines 694-703). -/
def insertCharsAfterCursor (o : Ctx) (cs : List Char) (s : EdState) : EdState :=
  let s1 := setCurBuf ((curBuf s).insertAt s.cursor cs) s
  display o { s1 with cursor := s1.cursor + cs.length, noNewline := true }

/-- `delete_before_cursor` (editor.rs lines 707-716). -/
def deleteBeforeCursor (o : Ctx) (s : EdState) : EdState :=
  let s1 :=
    if s.cursor > 0 then
      let s' := setCurBuf ((curBuf s).removeRange (s.cursor - 1) s.cursor).2 s
      { s' with cursor := s'.cursor - 1 }
    else s
  display o { s1 with noNewline := true }

/-- `delete_after_cursor` (editor.rs lines 720-730). -/
def deleteAfterCursor (o : Ctx) (s : EdState) : EdState :=
  let s1 :=
    if s.cursor < (curBuf s).numChars then
      setCurBuf ((curBuf s).removeRange s.cursor (s.cursor + 1)).2 s
    else s
  display o { s1 with noNewline := true }

/-- `delete_all_before_cursor` (editor.rs lines 733-738). -/
def deleteAllBeforeCursor (o : Ctx) (s : EdState) : EdState :=
  let s1 := setCurBuf ((curBuf s).removeRange 0 s.cursor).2 s
  display o { s1 with cursor := 0, noNewline := true }

/-- `delete_all_after_cursor` (editor.rs lines 741-748). -/
def deleteAllAfterCursor (o : Ctx) (s : EdState) : EdState :=
  let s1 := setCurBuf ((curBuf s).truncateAt s.cursor) s
  display o { s1 with noNewline := true }

/-- `delete_until` (editor.rs lines 751-762). -/
def deleteUntil (o : Ctx) (position : Nat) (s : EdState) : EdState :=
  let s1 := setCurBuf ((curBuf s).removeRange (min s.cursor position) (max s.cursor position)).2 s
  display o { s1 with cursor := min s.cursor position, noNewline := true }

/-- `delete_until_inclusive` (editor.rs lines 765-776). -/
def deleteUntilInclusive (o : Ctx) (position : Nat) (s : EdState) : EdState :=
  let s1 := setCurBuf
    ((curBuf s).removeRange (min s.cursor position) (max (s.cursor + 1) (position + 1))).2 s
  display o { s1 with cursor := min s.cursor position, noNewline := true }

/-- `get_word_before_cursor` (editor.rs lines 542-559). -/
def getWordBeforeCursor (o : Ctx) (ignoreSpaceBeforeCursor : Bool) (s : EdState) :
    Option (Nat × Nat) :=
  let words := o.wordDividerFn (curBuf s).chars
  match CursorPosition.get s.cursor words with
  | .InWord i => some (words.getD i (0, 0))
  | .InSpace (some i) _ =>
    if ignoreSpaceBeforeCursor then some (words.getD i (0, 0)) else none
  | .InSpace none _ => none
  | .OnWordLeftEdge i =>
    if ignoreSpaceBeforeCursor ∧ i > 0 then some (words.getD (i - 1) (0, 0)) else none
  | .OnWordRightEdge i => some (words.getD i (0, 0))

/-- `delete_word_before_cursor` (editor.rs lines 566-576). -/
def deleteWordBeforeCursor (o : Ctx) (ignoreSpaceBeforeCursor : Bool) (s : EdState) : EdState :=
  let s1 :=
    match getWordBeforeCursor o ignoreSpaceBeforeCursor s with
    | some (start, _) =>
      let (moved, b) := (curBuf s).removeRange start s.cursor
      let s' := setCurBuf b s
      { s' with cursor := s'.cursor - moved }
    | none => s
  display o { s1 with noNewline := true }

/-- `move_cursor_left` (editor.rs lines 780-794). -/
def moveCursorLeft (o : Ctx) (count : Nat) (s : EdState) : EdState :=
  if showAutosuggestionsPred s then display o s
  else
    let c := if count > s.cursor then s.cursor else count
    display o { s with cursor := s.cursor - c, noNewline := true }

/-- `move_cursor_right` (editor.rs lines 798-816). -/
def moveCursorRight (o : Ctx) (count : Nat) (s : EdState) : EdState :=
  if showAutosuggestionsPred s then display o s
  else
    let n := (curBuf s).numChars
    let c := if count > n - s.cursor then n - s.cursor else count
    display o { s with cursor := s.cursor + c, noNewline := true }

/-- `move_cursor_to` (editor.rs lines 819-827). -/
def moveCursorTo (o : Ctx) (pos : Nat) (s : EdState) : EdState :=
  let n := (curBuf s).numChars
  display o { s with cursor := if pos > n then n else pos, noNewline := true }

/-- `move_cursor_to_start_of_line` (editor.rs lines 830-834). -/
def moveCursorToStartOfLine (o : Ctx) (s : EdState) : EdState :=
  display o { s with cursor := 0, noNewline := true }

/-- `move_cursor_to_end_of_line` (editor.rs lines 837-842). -/
def moveCursorToEndOfLine (o : Ctx) (s : EdState) : EdState :=
  display o { s with cursor := (curBuf s).numChars, noNewline := true }

/-- `cursor_is_at_end_of_line` (editor.rs lines 844-851). -/
def cursorIsAtEndOfLine (s : EdState) : Bool :=
  if s.noEol then s.cursor = (curBuf s).numChars - 1
  else s.cursor = (curBuf s).numChars

/-- `search` (editor.rs lines 316-332). -/
def searchOp (o : Ctx) (forward : Bool) (s : EdState) : EdState :=
  let s1 :=
    if !isSearchB s then refreshSearch o forward s
    else if s.historySubsetIndex.length > 0 then
      { s with historySubsetLoc :=
          match s.historySubsetLoc with
          | some p =>
            if forward then
              if p < s.historySubsetIndex.length - 1 then some (p + 1) else some 0
            else
              if p > 0 then some (p - 1) else some (s.historySubsetIndex.length - 1)
          | none => none }
    else s
  display o s1

/-- `move_up` (editor.rs lines 592-625). -/
def moveUp (o : Ctx) (s : EdState) : EdState :=
  if showAutosuggestionsPred s then s
  else if isSearchB s then searchOp o false s
  else
    let s1 :=
      if s.newBuf.numChars > 0 then
        match s.historySubsetLoc with
        | some i =>
          if i > 0 then
            { s with historySubsetLoc := some (i - 1),
                     curHistoryLoc := some (s.historySubsetIndex.getD (i - 1) 0) }
          else s
        | none =>
          let idx := o.historySubsetFn s.newBuf.chars
          if idx.length > 0 then
            { s with historySubsetIndex := idx,
                     historySubsetLoc := some (idx.length - 1),
                     curHistoryLoc := some (idx.getD (idx.length - 1) 0) }
          else { s with historySubsetIndex := idx }
      else
        match s.curHistoryLoc with
        | some i => if i > 0 then { s with curHistoryLoc := some (i - 1) } else s
        | none =>
          if s.history.length > 0 then { s with curHistoryLoc := some (s.history.length - 1) }
          else s
    moveCursorToEndOfLine o s1

/-- `move_down` (editor.rs lines 628-656); note `cur_history_loc.take()`. -/
def moveDown (o : Ctx) (s : EdState) : EdState :=
  if showAutosuggestionsPred s then s
  else if isSearchB s then searchOp o true s
  else
    let s1 :=
      if s.newBuf.numChars > 0 then
        match s.historySubsetLoc with
        | some i =>
          if i < s.historySubsetIndex.length - 1 then
            { s with historySubsetLoc := some (i + 1),
                     curHistoryLoc := some (s.historySubsetIndex.getD (i + 1) 0) }
          else
            { s with curHistoryLoc := none, historySubsetLoc := none,
                     historySubsetIndex := [] }
        | none => s
      else
        match s.curHistoryLoc with
        | some i =>
          if i < s.history.length - 1 then { s with curHistoryLoc := some (i + 1) }
          else { s with curHistoryLoc := none }
        | none => s
    moveCursorToEndOfLine o s1

/-- `move_to_start_of_history` (editor.rs lines 659-668). -/
def moveToStartOfHistory (o : Ctx) (s : EdState) : EdState :=
  if s.history.length > 0 then moveCursorToEndOfLine o { s with curHistoryLoc := some 0 }
  else display o { s with curHistoryLoc := none, noNewline := true }

/-- `move_to_end_of_history` (editor.rs lines 671-679). -/
def moveToEndOfHistory (o : Ctx) (s : EdState) : EdState :=
  if s.curHistoryLoc.isSome then moveCursorToEndOfLine o { s with curHistoryLoc := none }
  else display o { s with noNewline := true }

/-- `undo` (editor.rs lines 342-351): returns the buffer's report; on success
snap the cursor to the end of the line, otherwise only redraw. -/
def undoOp (o : Ctx) (s : EdState) : Bool × EdState :=
  let (did, b) := (curBuf s).undo
  let s1 := setCurBuf b s
  if did then (true, moveCursorToEndOfLine o s1)
  else (false, display o { s1 with noNewline := true })

/-- `redo` (editor.rs lines 353-362). -/
def redoOp (o : Ctx) (s : EdState) : Bool × EdState :=
  let (did, b) := (curBuf s).redo
  let s1 := setCurBuf b s
  if did then (true, moveCursorToEndOfLine o s1)
  else (false, display o { s1 with noNewline := true })

/-- `revert` (editor.rs lines 364-373). -/
def revertOp (o : Ctx) (s : EdState) : Bool × EdState :=
  let (did, b) := (curBuf s).revert
  let s1 := setCurBuf b s
  if did then (true, moveCursorToEndOfLine o s1)
  else (false, display o { s1 with noNewline := true })

/-- `clear` (editor.rs lines 579-589), without the emitted escape codes. -/
def clearOp (o : Ctx) (s : EdState) : EdState :=
  display o (clearSearch { s with noNewline := true })

/-- `accept_autosuggestion` (editor.rs lines 866-881). -/
def acceptAutosuggestion (o : Ctx) (s : EdState) : EdState :=
  let s1 :=
    if s.show_autosuggestions then
      match s.autosuggestion with
      | some x =>
        if isSearchB s then setCurBuf ((curBuf s).copyBuffer x) s
        else setCurBuf ((curBuf s).insertFromBuffer x) s
      | none => { s with bufferChanged := true }
    else s
  moveCursorToEndOfLine o (clearSearch s1)

/-- `skip_completions_hint` (editor.rs lines 417-419). -/
def skipCompletionsHint (s : EdState) : EdState := { s with showCompletionsHint := none }

/-- `handle_newline` (editor.rs lines 245-268): the returned Bool is the
"done" signal.  Note that its final redraw is `_display(false)` directly. -/
def handleNewline (o : Ctx) (s : EdState) : Bool × EdState :=
  let s := if isSearchB s then acceptAutosuggestion o s else s
  let s := clearSearch s
  if s.showCompletionsHint.isSome then (false, { s with showCompletionsHint := none })
  else
    match (curBuf s).charBefore s.cursor with
    | some '\\' => (false, insertCharsAfterCursor o ['\n'] s)
    | _ =>
      let s := displayRaw { s with cursor := (curBuf s).numChars, noNewline := true }
      (true, { s with showCompletionsHint := none })

/-- The branch of `complete` taken when a completions hint is already active
(editor.rs lines 424-488): advance the highlight, splice the highlighted
candidate in place of the word before the cursor, store the new highlight
and redraw.  (The `BeforeComplete` event hook is the caller's and is not
modelled; with no active hint `complete` continues into the completer
query, which is outside this branch.) -/
def completeHintAdvance (o : Ctx) (ct : CompleteType) (s : EdState) : EdState :=
  match s.showCompletionsHint with
  | none => s
  | some (completions, iOpt) =>
    let w := o.terminalWidth
    let mw := maxWordSize completions
    let i := nextHighlight ct iOpt completions.length w mw
    let s1 := { s with showCompletionsHint := none }
    let s2 := deleteWordBeforeCursor o false s1
    let s3 := insertCharsAfterCursor o (completions.getD i "").data s2
    display o { s3 with showCompletionsHint := some (completions, some i), noNewline := true }

end EdState

/-! ## The sequence of public editor operations (C1)

One constructor per public mutating editor operation; running an operation
applies the embedded source function (each of which ends in its redraw,
except for the early-return paths of the source itself). -/

/-- A public editor operation (editor.rs `impl Editor`). -/
inductive EdOp where
  | insertChars (cs : List Char)
  | deleteBefore
  | deleteAfter
  | deleteAllBefore
  | deleteAllAfter
  | deleteUntil (p : Nat)
  | deleteUntilInclusive (p : Nat)
  | deleteWordBefore (ignoreSpace : Bool)
  | moveLeft (n : Nat)
  | moveRight (n : Nat)
  | moveTo (p : Nat)
  | moveStartOfLine
  | moveEndOfLine
  | moveUp
  | moveDown
  | moveToStartOfHistory
  | moveToEndOfHistory
  | search (forward : Bool)
  | undo
  | redo
  | revert
  | clear
  | acceptAutosuggestion
  | handleNewline
  | skipCompletionsHint
  | complete (ct : CompleteType)

/-- Apply one public editor operation. -/
def applyOp (o : Ctx) (op : EdOp) (s : EdState) : EdState :=
  match op with
  | .insertChars cs => EdState.insertCharsAfterCursor o cs s
  | .deleteBefore => EdState.deleteBeforeCursor o s
  | .deleteAfter => EdState.deleteAfterCursor o s
  | .deleteAllBefore => EdState.deleteAllBeforeCursor o s
  | .deleteAllAfter => EdState.deleteAllAfterCursor o s
  | .deleteUntil p => EdState.deleteUntil o p s
  | .deleteUntilInclusive p => EdState.deleteUntilInclusive o p s
  | .deleteWordBefore b => EdState.deleteWordBeforeCursor o b s
  | .moveLeft n => EdState.moveCursorLeft o n s
  | .moveRight n => EdState.moveCursorRight o n s
  | .moveTo p => EdState.moveCursorTo o p s
  | .moveStartOfLine => EdState.moveCursorToStartOfLine o s
  | .moveEndOfLine => EdState.moveCursorToEndOfLine o s
  | .moveUp => EdState.moveUp o s
  | .moveDown => EdState.moveDown o s
  | .moveToStartOfHistory => EdState.moveToStartOfHistory o s
  | .moveToEndOfHistory => EdState.moveToEndOfHistory o s
  | .search fwd => EdState.searchOp o fwd s
  | .undo => (EdState.undoOp o s).2
  | .redo => (EdState.redoOp o s).2
  | .revert => (EdState.revertOp o s).2
  | .clear => EdState.clearOp o s
  | .acceptAutosuggestion => EdState.acceptAutosuggestion o s
  | .handleNewline => (EdState.handleNewline o s).2
  | .skipCompletionsHint => EdState.skipCompletionsHint s
  | .complete ct => EdState.completeHintAdvance o ct s

/-- Run a sequence of public editor operations. -/
def runOps (o : Ctx) (ops : List EdOp) (s : EdState) : EdState :=
  ops.foldl (fun s op => applyOp o op s) s

/-- The cursor invariant (spec §3, §8): `0 ≤ cursor ≤ num_chars`, and under
`no_eol` on a non-empty buffer `cursor ≤ num_chars - 1`. -/
def CursorInv (s : EdState) : Prop :=
  s.cursor ≤ (EdState.curBuf s).numChars ∧
    (s.noEol = true → (EdState.curBuf s).numChars ≠ 0 →
      s.cursor ≤ (EdState.curBuf s).numChars - 1)

instance (s : EdState) : Decidable (CursorInv s) := by
  unfold CursorInv; infer_instance

/-! ## Redraw planner arithmetic (editor.rs `_display`, C5) -/

/-- The running-total loop of `calc_width` (editor.rs lines 929-941): round
the total up to the next multiple of the terminal width at each line break,
then add the prompt width and the line width. -/
def calcWidthAux (promptWidth termWidth : Nat) : Nat → List Nat → Nat
  | total, [] => total
  | total, line :: rest =>
    let t := if total % termWidth ≠ 0 then (total / termWidth + 1) * termWidth else total
    calcWidthAux promptWidth termWidth (t + promptWidth + line) rest

/-- `calc_width(prompt_width, buf_widths, terminal_width)` (editor.rs
lines 929-941). -/
def calcWidth (promptWidth : Nat) (bufWidths : List Nat) (termWidth : Nat) : Nat :=
  calcWidthAux promptWidth termWidth 0 bufWidths

/-- `new_num_lines = (new_total_width + terminal_width) / terminal_width`
(editor.rs line 986); the same formula computes `term_cursor_line` from the
width up to the cursor (line 1085). -/
def newNumLines (promptWidth : Nat) (bufWidths : List Nat) (termWidth : Nat) : Nat :=
  (calcWidth promptWidth bufWidths termWidth + termWidth) / termWidth

/-- `cursor_line_diff = new_num_lines - term_cursor_line` (editor.rs
line 1089), as a signed integer: `pw`/`widths` are the prompt width and
per-line widths of the whole displayed buffer, `pwCur`/`widthsCur` those
used for the width up to the cursor (in search mode `pwCur` is the fixed
9-cell search-prompt prefix width). -/
def cursorLineDiff (pw pwCur : Nat) (widths widthsCur : List Nat) (termWidth : Nat) : Int :=
  (newNumLines pw widths termWidth : Int) - (newNumLines pwCur widthsCur termWidth : Int)

/-- `widthsCur` is the per-line width list of a prefix of the displayed
buffer: the same leading lines, with the final line cut short (the Buffer
contract's `range_width(0, cursor)` against its full `width()`). -/
inductive TruncPrefix : List Nat → List Nat → Prop
  | nil (l : List Nat) : TruncPrefix [] l
  | last (m a : Nat) (l : List Nat) : m ≤ a → TruncPrefix [m] (a :: l)
  | cons (a : Nat) {l' l : List Nat} : TruncPrefix l' l → TruncPrefix (a :: l') (a :: l)

/-! ## The Vi keymap (keymap/vi.rs) -/

/-- `termion::event::Key`, restricted to the constructors vi.rs matches on. -/
inductive Key where
  | Char (c : Char)
  | Ctrl (c : Char)
  | Esc
  | Left
  | Right
  | Up
  | Down
  | Home
  | End
  | Backspace
  | Delete
  | Null
deriving DecidableEq, BEq, Repr

/-- The Vi editing mode (vi.rs lines 9-15). -/
inductive Mode where
  | Insert
  | Normal
  | Replace
  | Delete (startPos : Nat)
deriving DecidableEq, BEq, Repr

/-- `ModeStack::mode` (vi.rs lines 27-31): the top of the stack, Normal when
empty.  The stack is kept top-first. -/
def stackMode (stack : List Mode) : Mode := stack.head?.getD Mode.Normal

/-- `is_movement_key` (vi.rs lines 49-57). -/
def isMovementKey (key : Key) : Bool :=
  match key with
  | .Char 'h' | .Char 'l' | .Left | .Right | .Backspace | .Char ' '
  | .Home | .End | .Char '$' => true
  | _ => false

/-- Modelled from the source's `repeat` (vi.rs lines 187-209): the key
sequence dispatched on a dot-repeat when `last_insert` stays put — the
entering-insert key if any, then the captured keys, then Esc if an
entering-insert key exists. -/
def repeatDispatch (lastInsert : Option Key) (lastCommand : List Key) : List Key :=
  (match lastInsert with | some k => [k] | none => []) ++ lastCommand ++
    (if lastInsert.isSome then [Key.Esc] else [])

/-- The Vi keymap state (vi.rs `struct Vi`). -/
structure ViState where
  ed : EdState
  modeStack : List Mode
  currentCommand : List Key
  lastCommand : List Key
  currentInsert : Option Key
  lastInsert : Option Key
  count : Nat
  secondaryCount : Nat
  lastCount : Nat
  movementReset : Bool
deriving DecidableEq, Repr

namespace ViState

/-- `self.ed.current_buffer_mut().start_undo_group()`. -/
def edStartUndoGroup (s : EdState) : EdState :=
  EdState.setCurBuf (EdState.curBuf s).startUndoGroup s

/-- `self.ed.current_buffer_mut().end_undo_group()`. -/
def edEndUndoGroup (s : EdState) : EdState :=
  EdState.setCurBuf (EdState.curBuf s).endUndoGroup s

/-- `set_mode_preserve_last` (vi.rs lines 106-116). -/
def setModePreserveLast (m : Mode) (st : ViState) : ViState :=
  let st := { st with ed := { st.ed with noEol := m == Mode.Normal },
                      movementReset := m != Mode.Insert,
                      modeStack := m :: st.modeStack }
  if m = Mode.Insert then { st with ed := edStartUndoGroup st.ed } else st

/-- `set_mode` (vi.rs lines 97-104). -/
def setMode (m : Mode) (st : ViState) : ViState :=
  let st := setModePreserveLast m st
  if m = Mode.Insert then { st with lastCount := 0, lastCommand := [] } else st

/-- `pop_mode_after_movement` (vi.rs lines 118-148). -/
def popModeAfterMovement (o : Ctx) (st : ViState) : ViState :=
  let original := stackMode st.modeStack
  let stack := st.modeStack.tail
  let st := { st with modeStack := stack,
                      ed := { st.ed with noEol := stackMode stack == Mode.Normal },
                      movementReset := stackMode stack != Mode.Insert }
  match original with
  | Mode.Delete startPos =>
    let st := { st with ed := EdState.deleteUntil o startPos st.ed }
    { st with lastCommand := st.currentCommand, currentCommand := st.lastCommand,
              lastInsert := st.currentInsert, lastCount := st.count,
              count := 0, secondaryCount := 0 }
  | Mode.Normal => { st with count := 0 }
  | _ => st

/-- `pop_mode` (vi.rs lines 150-160). -/
def popMode (st : ViState) : ViState :=
  let lastMode := stackMode st.modeStack
  let stack := st.modeStack.tail
  let st := { st with modeStack := stack,
                      ed := { st.ed with noEol := stackMode stack == Mode.Normal },
                      movementReset := stackMode stack != Mode.Insert }
  if lastMode = Mode.Insert then { st with ed := edEndUndoGroup st.ed } else st

/-- `normal_mode_abort` (vi.rs lines 163-167). -/
def normalModeAbort (st : ViState) : ViState :=
  { st with modeStack := [], ed := { st.ed with noEol := true }, count := 0 }

/-- `move_count` (vi.rs lines 170-175). -/
def moveCount (st : ViState) : Nat := if st.count = 0 then 1 else st.count

/-- `move_count_left` (vi.rs lines 178-180). -/
def moveCountLeft (st : ViState) : Nat := min st.ed.cursor (moveCount st)

/-- `move_count_right` (vi.rs lines 183-185). -/
def moveCountRight (st : ViState) : Nat :=
  min ((EdState.curBuf st.ed).numChars - st.ed.cursor) (moveCount st)

/-- `handle_key_common` (vi.rs lines 211-225). -/
def handleKeyCommon (o : Ctx) (st : ViState) (key : Key) : ViState :=
  match key with
  | .Ctrl c => if c = 'l' then { st with ed := EdState.clearOp o st.ed } else st
  | .Left => { st with ed := EdState.moveCursorLeft o 1 st.ed }
  | .Right => { st with ed := EdState.moveCursorRight o 1 st.ed }
  | .Up => { st with ed := EdState.moveUp o st.ed }
  | .Down => { st with ed := EdState.moveDown o st.ed }
  | .Home => { st with ed := EdState.moveCursorToStartOfLine o st.ed }
  | .End => { st with ed := EdState.moveCursorToEndOfLine o st.ed }
  | .Backspace => { st with ed := EdState.deleteBeforeCursor o st.ed }
  | .Delete => { st with ed := EdState.deleteAfterCursor o st.ed }
  | _ => st

/-- The `movement_reset` preamble of a fresh insert-mode keystroke
(vi.rs lines 247-254 and 260-267). -/
def applyMovementReset (st : ViState) : ViState :=
  if st.movementReset then
    { st with ed := edStartUndoGroup (edEndUndoGroup st.ed),
              lastCommand := [], movementReset := false,
              lastInsert := some (Key.Char 'i') }
  else st

/-- The `u` loop (vi.rs lines 440-450): undo up to `n` times,
short-circuiting at the first refusal. -/
def undoTimes (o : Ctx) : Nat → EdState → EdState
  | 0, s => s
  | n + 1, s =>
    let r := EdState.undoOp o s
    if r.1 then undoTimes o n r.2 else r.2

/-- The Ctrl-r loop (vi.rs lines 451-461). -/
def redoTimes (o : Ctx) : Nat → EdState → EdState
  | 0, s => s
  | n + 1, s =>
    let r := EdState.redoOp o s
    if r.1 then redoTimes o n r.2 else r.2

/-- The replace loop (vi.rs lines 480-483): delete after the cursor then
insert the replacement, `n` times. -/
def replaceTimes (o : Ctx) (c : Char) : Nat → EdState → EdState
  | 0, s => s
  | n + 1, s =>
    replaceTimes o c n (EdState.insertCharsAfterCursor o [c] (EdState.deleteAfterCursor o s))

/-- Dispatch a list of keys in order through the given key handler. -/
def dispatchList (core : ViState → Key → Option ViState) :
    List Key → ViState → Option ViState
  | [], st => some st
  | k :: ks, st => (core st k).bind (dispatchList core ks)

/-- The Esc-time repetition loop (vi.rs lines 233-238): each iteration takes
the captured command (leaving it empty — the replayed keys repopulate it)
and dispatches its keys. -/
def escRepeatIters (core : ViState → Key → Option ViState) :
    Nat → ViState → Option ViState
  | 0, st => some st
  | n + 1, st =>
    let keys := st.lastCommand
    (dispatchList core keys { st with lastCommand := [] }).bind (escRepeatIters core n)

/-- `repeat` (vi.rs lines 187-209): take the captured command, dispatch the
entering-insert key if any, the captured keys, and Esc if `last_insert` is
still present, then restore the captured command. -/
def viRepeat (core : ViState → Key → Option ViState) (st : ViState) :
    Option ViState :=
  let keys := st.lastCommand
  let st0 := { st with lastCount := st.count, lastCommand := [] }
  let step1 := match st0.lastInsert with
    | some k => core st0 k
    | none => some st0
  (step1.bind (dispatchList core keys)).bind fun s2 =>
    (if s2.lastInsert.isSome then core s2 Key.Esc else some s2).map
      fun s3 => { s3 with lastCommand := keys }

/-- `handle_key_insert` (vi.rs lines 227-296). -/
def handleKeyInsert (o : Ctx) (core : ViState → Key → Option ViState)
    (st : ViState) (key : Key) : Option ViState :=
  match key with
  | .Esc =>
    (if st.count > 0 then
        (escRepeatIters core (st.count - 1) { st with lastCount := st.count }).map
          fun s => { s with count := 0 }
      else some st).map fun st =>
      popMode { st with ed := EdState.moveCursorLeft o 1 st.ed }
  | .Char c =>
    let st := applyMovementReset st
    let st := { st with lastCommand := st.lastCommand ++ [key] }
    some { st with ed := EdState.insertCharsAfterCursor o [c] st.ed }
  | .Backspace | .Delete =>
    let st := applyMovementReset st
    let st := { st with lastCommand := st.lastCommand ++ [key] }
    some (handleKeyCommon o st key)
  | .Left | .Right | .Home | .End =>
    some (handleKeyCommon o { st with count := 0, movementReset := true } key)
  | .Up =>
    let st := { st with count := 0, movementReset := true }
    let st := { st with ed := edEndUndoGroup st.ed }
    let st := { st with ed := EdState.moveUp o st.ed }
    some { st with ed := edStartUndoGroup st.ed }
  | .Down =>
    let st := { st with count := 0, movementReset := true }
    let st := { st with ed := edEndUndoGroup st.ed }
    let st := { st with ed := EdState.moveDown o st.ed }
    some { st with ed := edStartUndoGroup st.ed }
  | _ => some (handleKeyCommon o st key)

/-- `handle_key_normal` (vi.rs lines 298-464). -/
def handleKeyNormal (o : Ctx) (core : ViState → Key → Option ViState)
    (st : ViState) (key : Key) : Option ViState :=
  match key with
  | .Esc => some { st with count := 0 }
  | .Char c =>
    if c = 'i' then
      some (setMode Mode.Insert { st with lastInsert := some key })
    else if c = 'a' then
      let st := setMode Mode.Insert { st with lastInsert := some key }
      some { st with ed := EdState.moveCursorRight o 1 st.ed }
    else if c = 'A' then
      let st := setMode Mode.Insert { st with lastInsert := some key }
      some { st with ed := EdState.moveCursorToEndOfLine o st.ed }
    else if c = 'I' then
      let st := setMode Mode.Insert { st with lastInsert := some key }
      some { st with ed := EdState.moveCursorToStartOfLine o st.ed }
    else if c = 's' then
      let st := setMode Mode.Insert { st with lastInsert := some key }
      let pos := st.ed.cursor + moveCountRight st
      let st := { st with ed := EdState.deleteUntil o pos st.ed }
      some { st with lastCount := st.count, count := 0 }
    else if c = 'r' then
      some (setMode Mode.Replace st)
    else if c = 'd' ∨ c = 'c' then
      let st := { st with currentCommand := [] }
      let st :=
        if c = 'd' then
          { st with currentInsert := none, currentCommand := st.currentCommand ++ [key] }
        else
          setMode Mode.Insert { st with currentInsert := some key, currentCommand := [] }
      let startPos := st.ed.cursor
      let st := setMode (Mode.Delete startPos) st
      some { st with secondaryCount := st.count, count := 0 }
    else if c = 'D' then
      let st := { st with lastInsert := none, lastCommand := [key], count := 0, lastCount := 0 }
      some { st with ed := EdState.deleteAllAfterCursor o st.ed }
    else if c = 'C' then
      let st := { st with lastInsert := none, lastCommand := [key], count := 0, lastCount := 0 }
      let st := setModePreserveLast Mode.Insert st
      some { st with ed := EdState.deleteAllAfterCursor o st.ed }
    else if c = '.' then
      viRepeat core { st with count := dotNewCount st.count st.lastCount }
    else if c = 'h' then
      let cnt := moveCountLeft st
      some (popModeAfterMovement o { st with ed := EdState.moveCursorLeft o cnt st.ed })
    else if c = 'l' ∨ c = ' ' then
      let cnt := moveCountRight st
      some (popModeAfterMovement o { st with ed := EdState.moveCursorRight o cnt st.ed })
    else if c = 'k' then
      some (popModeAfterMovement o { st with ed := EdState.moveUp o st.ed })
    else if c = 'j' then
      some (popModeAfterMovement o { st with ed := EdState.moveDown o st.ed })
    else if c = '0' ∧ st.count = 0 then
      some (popModeAfterMovement o { st with ed := EdState.moveCursorToStartOfLine o st.ed })
    else if '0' ≤ c ∧ c ≤ '9' then
      some { st with count := viDigitStep st.count (c.toNat - 48) }
    else if c = '$' then
      some (popModeAfterMovement o { st with ed := EdState.moveCursorToEndOfLine o st.ed })
    else if c = 'x' then
      let st := { st with lastInsert := none, lastCommand := [key], lastCount := st.count }
      let pos := st.ed.cursor + moveCountRight st
      let st := { st with ed := EdState.deleteUntil o pos st.ed }
      some { st with count := 0 }
    else if c = 'u' then
      let cnt := moveCount st
      let st := { st with count := 0 }
      some { st with ed := undoTimes o cnt st.ed }
    else
      some (handleKeyCommon o st key)
  | .Left | .Backspace =>
    let cnt := moveCountLeft st
    some (popModeAfterMovement o { st with ed := EdState.moveCursorLeft o cnt st.ed })
  | .Right =>
    let cnt := moveCountRight st
    some (popModeAfterMovement o { st with ed := EdState.moveCursorRight o cnt st.ed })
  | .Up => some (popModeAfterMovement o { st with ed := EdState.moveUp o st.ed })
  | .Down => some (popModeAfterMovement o { st with ed := EdState.moveDown o st.ed })
  | .Delete =>
    let st := { st with lastInsert := none, lastCommand := [key], lastCount := st.count }
    let pos := st.ed.cursor + moveCountRight st
    let st := { st with ed := EdState.deleteUntil o pos st.ed }
    some { st with count := 0 }
  | .Ctrl c =>
    if c = 'r' then
      let cnt := moveCount st
      let st := { st with count := 0 }
      some { st with ed := redoTimes o cnt st.ed }
    else
      some (handleKeyCommon o st key)
  | _ => some (handleKeyCommon o st key)

/-- `handle_key_replace` (vi.rs lines 466-499). -/
def handleKeyReplace (o : Ctx) (st : ViState) (key : Key) : ViState :=
  let st1 :=
    match key with
    | .Char c =>
      let st :=
        if moveCountRight st = moveCount st then
          let st := { st with lastInsert := none,
                              lastCommand := [Key.Char 'r', key],
                              lastCount := st.count }
          let n := moveCountRight st
          let st := { st with ed := edStartUndoGroup st.ed }
          let st := { st with ed := replaceTimes o c n st.ed }
          let st := { st with ed := edEndUndoGroup st.ed }
          { st with ed := EdState.moveCursorLeft o 1 st.ed }
        else st
      popMode st
    | _ => normalModeAbort st
  { st1 with count := 0 }

/-- `handle_key_delete_or_change` (vi.rs lines 501-551). -/
def handleKeyDeleteOrChange (o : Ctx) (normalFn : ViState → Key → Option ViState)
    (st : ViState) (key : Key) : Option ViState :=
  if isMovementKey key || (key == Key.Char '0' && st.count == 0) then
    let st := { st with count := deleteEffectiveCount st.count st.secondaryCount }
    let st := { st with currentCommand := st.currentCommand ++ [key] }
    normalFn st key
  else
    match key with
    | .Char c =>
      if '0' ≤ c ∧ c ≤ '9' then normalFn st key
      else if (c = 'c' ∧ st.currentInsert = some (Key.Char 'c')) ∨
              (c = 'd' ∧ st.currentInsert = none) then
        let st := { st with currentCommand := st.currentCommand ++ [key] }
        let st := { st with count := 0, secondaryCount := 0 }
        let st := { st with ed := EdState.moveCursorToStartOfLine o st.ed }
        let st := { st with ed := EdState.deleteAllAfterCursor o st.ed }
        some (popMode st)
      else some (normalModeAbort st)
    | _ => some (normalModeAbort st)

/-- `handle_key_core` (vi.rs lines 555-562), with a recursion fuel: `none`
means the fuel ran out before the dispatch finished (the Rust code has no
such bound; every theorem about it is conditional on termination). -/
def handleKeyCore (o : Ctx) : Nat → ViState → Key → Option ViState
  | 0, _, _ => none
  | fuel + 1, st, key =>
    match stackMode st.modeStack with
    | Mode.Normal => handleKeyNormal o (handleKeyCore o fuel) st key
    | Mode.Insert => handleKeyInsert o (handleKeyCore o fuel) st key
    | Mode.Replace => some (handleKeyReplace o st key)
    | Mode.Delete _ =>
      handleKeyDeleteOrChange o (handleKeyNormal o (handleKeyCore o fuel)) st key

end ViState

/-! ## Concrete fixtures used to evaluate the theorems on real inputs -/

/-- A concrete context: empty history-search oracle, no word spans,
an 80-cell terminal. -/
def sampleCtx : Ctx := ⟨fun _ => [], fun _ => [], fun _ _ => none, fun _ => [], 80⟩

/-- The editor state right after `Editor::new` with an empty initial buffer
(editor.rs lines 179-204). -/
def sampleEd : EdState :=
  { cursor := 0, newBuf := emptyBuffer, history := [], curHistoryLoc := none,
    showCompletionsHint := none, show_autosuggestions := true, noEol := false,
    noNewline := false, reverseSearch := false, forwardSearch := false,
    bufferChanged := false, historySubsetIndex := [], historySubsetLoc := none,
    autosuggestion := none }

/-- The keymap state right after `Vi::new` (vi.rs lines 73-90): insert mode
pushed, an undo group started, `last_insert = Some('i')`. -/
def sampleVi : ViState :=
  { ed := ViState.edStartUndoGroup sampleEd, modeStack := [Mode.Insert],
    currentCommand := [], lastCommand := [], currentInsert := none,
    lastInsert := some (Key.Char 'i'), count := 0, secondaryCount := 0,
    lastCount := 0, movementReset := false }

/-- The keymap state after Esc: empty mode stack (= Normal), `no_eol` set. -/
def sampleViNormal : ViState :=
  { sampleVi with modeStack := [], ed := { sampleVi.ed with noEol := true } }

/-- A 6-cell-terminal context whose word divider always reports the single
span `(0, 2)`. -/
def sampleCompleteCtx : Ctx :=
  ⟨fun _ => [], fun _ => [], fun _ _ => none, fun _ => [(0, 2)], 6⟩

/-- An editor state holding `ab` with the cursor in the middle and no hint,
search or history. -/
def sampleMidEd : EdState :=
  { sampleEd with
    cursor := 1
    newBuf := { chars := ['a', 'b'], undoStack := [], redoStack := [], groupOpen := false } }

/-- The mid-buffer state in Vi normal mode: `no_eol` set. -/
def sampleNoEolEd : EdState := { sampleMidEd with noEol := true }

/-- An editor state holding `ab` with the cursor at its end and an active
completions hint over `aa`, `bb`, `cc` highlighting index 0. -/
def sampleCompleteEd : EdState :=
  { sampleEd with
    cursor := 2
    newBuf := { chars := ['a', 'b'], undoStack := [], redoStack := [], groupOpen := false }
    showCompletionsHint := some (["aa", "bb", "cc"], some 0) }

/-- The Vi keymap's `no_eol` invariant (C9): the editor's `no_eol` flag is
set exactly when the current mode — the top of the mode stack, Normal when
the stack is empty — is Normal. -/
def Inv9 (st : ViState) : Prop :=
  st.ed.noEol = (stackMode st.modeStack == Mode.Normal)

instance (st : ViState) : Decidable (Inv9 st) :=
  inferInstanceAs (Decidable (st.ed.noEol = (stackMode st.modeStack == Mode.Normal)))

/-! # Theorems -/

/-! ## C2: the word-position classifier matches the spec's description -/

theorem spansOrdered_head {s e : Nat} {rest : List (Nat × Nat)}
    (h : spansOrdered ((s, e) :: rest) = true) : s ≤ e := by
  cases rest with
  | nil => simpa [spansOrdered] using h
  | cons p rest' =>
    obtain ⟨s', e'⟩ := p
    simp [spansOrdered, Bool.and_eq_true] at h
    exact h.1.1

theorem spansOrdered_tail {s e : Nat} {rest : List (Nat × Nat)}
    (h : spansOrdered ((s, e) :: rest) = true) : spansOrdered rest = true := by
  cases rest with
  | nil => simp [spansOrdered]
  | cons p rest' =>
    obtain ⟨s', e'⟩ := p
    simp [spansOrdered, Bool.and_eq_true] at h
    exact h.2

theorem spansOrdered_link {s e s' e' : Nat} {rest : List (Nat × Nat)}
    (h : spansOrdered ((s, e) :: (s', e') :: rest) = true) : e ≤ s' := by
  simp [spansOrdered, Bool.and_eq_true] at h
  exact h.1.2

/-- In an ordered span list, every span after the head starts no earlier
than the head. -/
theorem spansOrdered_start_mono {s e : Nat} :
    ∀ {rest : List (Nat × Nat)}, spansOrdered ((s, e) :: rest) = true →
      ∀ p ∈ rest, s ≤ p.1 := by
  intro rest
  induction rest generalizing s e with
  | nil => intro _ p hp; cases hp
  | cons q rest' ih =>
    obtain ⟨s', e'⟩ := q
    intro h p hp
    have hse : s ≤ e := spansOrdered_head h
    have hlink : e ≤ s' := spansOrdered_link h
    have htail : spansOrdered ((s', e') :: rest') = true := spansOrdered_tail h
    rcases List.mem_cons.mp hp with hp | hp
    · rw [hp]
      omega
    · have := ih htail p hp
      omega

/-- If the cursor lies strictly before every remaining start, the spec scan
finds nothing. -/
theorem specScan_none_of_lt {c : Nat} :
    ∀ (ws : List (Nat × Nat)) (i : Nat), spansOrdered ws = true →
      (∀ p ∈ ws, c < p.1) → specScan c i ws = none := by
  intro ws
  induction ws with
  | nil => intro i _ _; rfl
  | cons q rest ih =>
    obtain ⟨s, e⟩ := q
    intro i hord hlt
    have hcs : c < s := hlt (s, e) (by simp)
    have hse : s ≤ e := spansOrdered_head hord
    have h1 : ¬(s < c ∧ c < e) := by omega
    have h2 : ¬(c = s) := by omega
    have h3 : ¬(c = e) := by omega
    simp only [specScan, if_neg h1, if_neg h2, if_neg h3]
    exact ih (i + 1) (spansOrdered_tail hord) (fun p hp => hlt p (by simp [hp]))

/-- If the cursor lies strictly before every remaining start, no remaining
span ends before it, so the left-nearest accumulator is returned as is. -/
theorem nearestLeftWord_of_lt {c : Nat} :
    ∀ (ws : List (Nat × Nat)) (i : Nat) (acc : Option Nat), spansOrdered ws = true →
      (∀ p ∈ ws, c < p.1) → nearestLeftWord c i acc ws = acc := by
  intro ws
  induction ws with
  | nil => intro i acc _ _; rfl
  | cons q rest ih =>
    obtain ⟨s, e⟩ := q
    intro i acc hord hlt
    have hcs : c < s := hlt (s, e) (by simp)
    have hse : s ≤ e := spansOrdered_head hord
    have h1 : ¬(e < c) := by omega
    simp only [nearestLeftWord, if_neg h1]
    exact ih (i + 1) acc (spansOrdered_tail hord) (fun p hp => hlt p (by simp [hp]))

/-- The correspondence between the Rust scan loop and the spec's
classification, carried over the not-yet-scanned suffix. -/
theorem getLoop_eq_spec {c : Nat} :
    ∀ (ws : List (Nat × Nat)) (i : Nat) (acc : Option Nat),
      spansOrdered ws = true →
      (∀ s e rest, ws = (s, e) :: rest → c < s → acc = some (i - 1)) →
      (ws = [] → acc = some (i - 1)) →
      CursorPosition.getLoop c i ws =
        (match specScan c i ws with
         | some p => p
         | none =>
           CursorPosition.InSpace (nearestLeftWord c i acc ws) (nearestRightWord c i ws)) := by
  intro ws
  induction ws with
  | nil =>
    intro i acc _ _ hnil
    simp [CursorPosition.getLoop, specScan, nearestLeftWord, nearestRightWord, hnil rfl]
  | cons q rest ih =>
    obtain ⟨s, e⟩ := q
    intro i acc hord hacc _
    have hse : s ≤ e := spansOrdered_head hord
    rcases Nat.lt_trichotomy c s with hlt | heq | hgt0
    · -- c < s: the loop exits with InSpace; nothing later can match
      have h1 : ¬(s = c) := by omega
      have h2 : ¬(e = c) := by omega
      have h3 : ¬(s < c ∧ c < e) := by omega
      have h4 : ¬(c = s) := by omega
      have h5 : ¬(c = e) := by omega
      have h6 : ¬(e < c) := by omega
      have hrest : ∀ p ∈ rest, c < p.1 := by
        intro p hp
        have := spansOrdered_start_mono hord p hp
        omega
      have hscan : specScan c (i + 1) rest = none :=
        specScan_none_of_lt rest (i + 1) (spansOrdered_tail hord) hrest
      have haccv : acc = some (i - 1) := hacc s e rest rfl hlt
      have hleft : nearestLeftWord c (i + 1) (some (i - 1)) rest = some (i - 1) :=
        nearestLeftWord_of_lt rest (i + 1) (some (i - 1)) (spansOrdered_tail hord) hrest
      simp [CursorPosition.getLoop, specScan, nearestLeftWord, nearestRightWord,
        h1, h2, h3, h4, h5, h6, hlt, hscan, haccv, hleft]
    · -- c = s: both return the left edge at index i
      have h3 : ¬(s < c ∧ c < e) := by omega
      simp [CursorPosition.getLoop, specScan, heq.symm, h3]
    · -- s < c
      by_cases hec : e = c
      · -- right edge at index i
        have h3 : ¬(s < c ∧ c < e) := by omega
        have h1 : ¬(s = c) := by omega
        have h4 : ¬(c = s) := by omega
        simp [CursorPosition.getLoop, specScan, hec, h3, h1, h4]
      · by_cases hce : c < e
        · -- strictly inside word i
          have hin : s < c ∧ c < e := ⟨hgt0, hce⟩
          have h1 : ¬(s = c) := by omega
          have h2 : ¬(e = c) := by omega
          simp [CursorPosition.getLoop, specScan, h1, h2, hin]
        · -- e < c: fall through to the next span
          have hgt : e < c := by omega
          have h1 : ¬(s = c) := by omega
          have h2 : ¬(e = c) := by omega
          have h3 : ¬(s < c ∧ c < e) := by omega
          have h4 : ¬(c = s) := by omega
          have h5 : ¬(c = e) := by omega
          have h7 : ¬(c < s) := by omega
          have ihr := ih (i + 1) (some i) (spansOrdered_tail hord)
            (fun _ _ _ _ _ => by simp) (fun _ => by simp)
          simp only [CursorPosition.getLoop, specScan, nearestLeftWord, nearestRightWord,
            if_neg h1, if_neg h2, if_neg h3, if_neg h4, if_neg h5, if_neg h7, if_pos hgt]
          exact ihr

/-- **C2.** The word-position classifier is a pure total function that, on
every ascending non-overlapping span list, returns exactly the
classification described by the spec: `InWord i` for `start < c < end`,
`OnWordLeftEdge i` for `c = start`, `OnWordRightEdge i` for `c = end` —
the first matching classification in scan order — and otherwise `InSpace`
of the nearest word indices on either side (absent at the ends), with an
empty list giving `InSpace(none, none)`. -/
theorem wordClassifier_matches_spec (c : Nat) (ws : List (Nat × Nat))
    (h : spansOrdered ws = true) :
    CursorPosition.get c ws = classifySpec c ws := by
  match ws with
  | [] => rfl
  | (s0, e0) :: rest =>
    have hse : s0 ≤ e0 := spansOrdered_head h
    rcases Nat.lt_trichotomy c s0 with hlt | heq | hgt
    · -- before the first word
      have h1 : ¬(c = s0) := by omega
      have h3 : ¬(s0 < c ∧ c < e0) := by omega
      have h5 : ¬(c = e0) := by omega
      have h6 : ¬(e0 < c) := by omega
      have hrest : ∀ p ∈ rest, c < p.1 := by
        intro p hp
        have := spansOrdered_start_mono h p hp
        omega
      have hscan : specScan c 1 rest = none :=
        specScan_none_of_lt rest 1 (spansOrdered_tail h) hrest
      have hleft : nearestLeftWord c 1 none rest = none :=
        nearestLeftWord_of_lt rest 1 none (spansOrdered_tail h) hrest
      simp [CursorPosition.get, classifySpec, specScan, nearestLeftWord, nearestRightWord,
        h1, h3, h5, h6, hlt, hscan, hleft]
    · -- on the left edge of the first word
      have h3 : ¬(s0 < c ∧ c < e0) := by omega
      simp [CursorPosition.get, classifySpec, specScan, heq, h3]
    · -- past the first start: enter the scan loop
      have h1 : ¬(c = s0) := by omega
      have h2 : ¬(c < s0) := by omega
      have hloop := getLoop_eq_spec (c := c) ((s0, e0) :: rest) 0 none h
        (fun s e r hr hlt => by
          injection hr with h1 _
          injection h1 with hs _
          exact absurd hlt (by omega))
        (by simp)
      simp only [CursorPosition.get, if_neg h1, if_neg h2, hloop]
      rfl

/-- Witness for C2: the classifier agrees with the spec on a concrete
ordered span list. -/
theorem wordClassifier_matches_spec_witness :
    spansOrdered [(1, 3), (5, 7)] = true ∧
      CursorPosition.get 4 [(1, 3), (5, 7)] = classifySpec 4 [(1, 3), (5, 7)] :=
  ⟨by decide, wordClassifier_matches_spec 4 [(1, 3), (5, 7)] (by decide)⟩

/-! ## C5: `cursor_line_diff` is never negative -/

/-- The line-break rounding of `calc_width` never shrinks the total. -/
theorem roundUp_ge (W t : Nat) (hW : 0 < W) :
    t ≤ (if t % W ≠ 0 then (t / W + 1) * W else t) := by
  by_cases h : t % W = 0
  · simp [h]
  · rw [if_pos h]
    have h1 : W * (t / W) + t % W = t := Nat.div_add_mod t W
    have h2 : t % W < W := Nat.mod_lt t hW
    have h3 : (t / W + 1) * W = W * (t / W) + W := by ring
    rw [h3]
    calc t = W * (t / W) + t % W := h1.symm
      _ ≤ W * (t / W) + W := Nat.add_le_add_left (le_of_lt h2) _

/-- The line-break rounding of `calc_width` is monotone in the total. -/
theorem roundUp_mono (W t' t : Nat) (hW : 0 < W) (h : t' ≤ t) :
    (if t' % W ≠ 0 then (t' / W + 1) * W else t') ≤
      (if t % W ≠ 0 then (t / W + 1) * W else t) := by
  by_cases h' : t' % W = 0
  · rw [if_neg (by simpa using h')]
    exact le_trans h (roundUp_ge W t hW)
  · rw [if_pos h']
    by_cases ht : t % W = 0
    · rw [if_neg (by simpa using ht)]
      have hmt : W * (t / W) = t := by
        have h1 : W * (t / W) + t % W = t := Nat.div_add_mod t W
        rw [ht, Nat.add_zero] at h1
        exact h1
      have hlt : t' / W < t / W := by
        by_contra hcon
        push_neg at hcon
        have heq : t' / W = t / W := le_antisymm (Nat.div_le_div_right h) hcon
        have h2 : W * (t' / W) + t' % W = t' := Nat.div_add_mod t' W
        rw [heq, hmt] at h2
        have hr : 0 < t' % W := Nat.pos_of_ne_zero h'
        have : t < t' := by
          rw [← h2]
          exact Nat.lt_add_of_pos_right hr
        exact absurd this (not_lt.mpr h)
      calc (t' / W + 1) * W ≤ (t / W) * W :=
            Nat.mul_le_mul_right _ (Nat.succ_le_of_lt hlt)
        _ = t := by rw [Nat.mul_comm]; exact hmt
    · rw [if_pos ht]
      exact Nat.mul_le_mul_right _ (Nat.add_le_add_right (Nat.div_le_div_right h) 1)

/-- `calc_width`'s running total never decreases. -/
theorem calcWidthAux_ge (pw W : Nat) (hW : 0 < W) :
    ∀ (l : List Nat) (t : Nat), t ≤ calcWidthAux pw W t l := by
  intro l
  induction l with
  | nil => intro t; exact le_refl _
  | cons a rest ih =>
    intro t
    show t ≤ calcWidthAux pw W ((if t % W ≠ 0 then (t / W + 1) * W else t) + pw + a) rest
    refine le_trans (le_trans (roundUp_ge W t hW) ?_)
      (ih ((if t % W ≠ 0 then (t / W + 1) * W else t) + pw + a))
    rw [Nat.add_assoc]
    exact Nat.le_add_right _ _

/-- `calc_width` is monotone in the prompt width, the initial total, and a
truncated-prefix of the line widths. -/
theorem calcWidthAux_mono (W : Nat) (hW : 0 < W) :
    ∀ {l' l : List Nat}, TruncPrefix l' l → ∀ (pw' pw t' t : Nat), pw' ≤ pw → t' ≤ t →
      calcWidthAux pw' W t' l' ≤ calcWidthAux pw W t l := by
  intro l' l htp
  induction htp with
  | nil l =>
    intro pw' pw t' t _ ht
    exact le_trans ht (calcWidthAux_ge pw W hW l t)
  | last m a l hm =>
    intro pw' pw t' t hpw ht
    show (if t' % W ≠ 0 then (t' / W + 1) * W else t') + pw' + m ≤
      calcWidthAux pw W ((if t % W ≠ 0 then (t / W + 1) * W else t) + pw + a) l
    refine le_trans ?_
      (calcWidthAux_ge pw W hW l ((if t % W ≠ 0 then (t / W + 1) * W else t) + pw + a))
    have := roundUp_mono W t' t hW ht
    omega
  | cons a htp ih =>
    intro pw' pw t' t hpw ht
    show calcWidthAux pw' W ((if t' % W ≠ 0 then (t' / W + 1) * W else t') + pw' + a) _ ≤
      calcWidthAux pw W ((if t % W ≠ 0 then (t / W + 1) * W else t) + pw + a) _
    refine ih pw' pw _ _ hpw ?_
    have := roundUp_mono W t' t hW ht
    omega

/-- **C5.** In the redraw computation, whenever the width-to-cursor input is
a truncated prefix of the displayed widths and the prompt width used for the
cursor math does not exceed the displayed prompt width (equal outside
search; the fixed 9-cell search-prompt prefix against the full search prompt
in search mode), the cursor line difference `new_num_lines -
term_cursor_line` is non-negative, so the `unreachable!()` branch guarded by
`cursor_line_diff < 0` is never executed. -/
theorem cursorLineDiff_nonneg (pw pwCur W : Nat) (widths widthsCur : List Nat)
    (hW : 0 < W) (hpw : pwCur ≤ pw) (hpre : TruncPrefix widthsCur widths) :
    0 ≤ cursorLineDiff pw pwCur widths widthsCur W := by
  unfold cursorLineDiff newNumLines calcWidth
  have h := calcWidthAux_mono W hW hpre pwCur pw 0 0 hpw (le_refl 0)
  have hdiv : (calcWidthAux pwCur W 0 widthsCur + W) / W ≤
      (calcWidthAux pw W 0 widths + W) / W :=
    Nat.div_le_div_right (by omega)
  omega

/-- Witness for C5: a concrete two-line buffer cut short at the cursor,
with the 9-cell search-prompt prefix width against a wider search prompt. -/
theorem cursorLineDiff_nonneg_witness :
    (0 : Int) ≤ cursorLineDiff 14 9 [7, 4] [7, 2] 5 :=
  cursorLineDiff_nonneg 14 9 5 [7, 4] [7, 2] (by decide) (by decide)
    (TruncPrefix.cons 7 (TruncPrefix.last 2 4 [] (by decide)))

/-! ## C1: the cursor invariant holds after every public operation -/

/-- The cursor clamps of `_display` establish the cursor invariant outright. -/
theorem displayRaw_cursorInv (s : EdState) : CursorInv (EdState.displayRaw s) := by
  obtain ⟨cur, nb, hist, chl, hint, sa, noeol, nn, rs, fs, bc, hsi, hsl, asug⟩ := s
  cases chl <;> cases noeol <;>
    simp only [CursorInv, EdState.displayRaw, EdState.curBuf, Buffer.numChars] <;>
    split_ifs <;> simp_all <;> omega

/-- `display` ends in `_display`, so it establishes the cursor invariant. -/
theorem display_cursorInv (o : Ctx) (s : EdState) : CursorInv (EdState.display o s) :=
  displayRaw_cursorInv _

/-- The cursor invariant only mentions the cursor, the current buffer and
`no_eol`; any state change leaving those intact preserves it. -/
theorem cursorInv_congr {s s' : EdState} (h : CursorInv s)
    (hc : s'.cursor = s.cursor) (hb : EdState.curBuf s' = EdState.curBuf s)
    (hn : s'.noEol = s.noEol) : CursorInv s' := by
  unfold CursorInv at *
  rw [hc, hb, hn]
  exact h

/-- `clear_search` leaves the cursor, the current buffer and `no_eol`
untouched. -/
theorem cursorInv_clearSearch {s : EdState} (h : CursorInv s) :
    CursorInv (EdState.clearSearch s) :=
  cursorInv_congr h rfl rfl rfl

/-- Writing the completions hint leaves the cursor invariant intact. -/
theorem cursorInv_setHint {s : EdState} (x : Option (List String × Option Nat))
    (h : CursorInv s) : CursorInv { s with showCompletionsHint := x } :=
  cursorInv_congr h rfl rfl rfl

/-- Every public editor operation re-establishes or preserves the cursor
invariant. -/
theorem cursorInv_applyOp (o : Ctx) (op : EdOp) (s : EdState) (h : CursorInv s) :
    CursorInv (applyOp o op s) := by
  cases op with
  | insertChars cs => exact display_cursorInv o _
  | deleteBefore => exact display_cursorInv o _
  | deleteAfter => exact display_cursorInv o _
  | deleteAllBefore => exact display_cursorInv o _
  | deleteAllAfter => exact display_cursorInv o _
  | deleteUntil p => exact display_cursorInv o _
  | deleteUntilInclusive p => exact display_cursorInv o _
  | deleteWordBefore b => exact display_cursorInv o _
  | moveLeft n =>
    show CursorInv (EdState.moveCursorLeft o n s)
    unfold EdState.moveCursorLeft
    split_ifs <;> exact display_cursorInv o _
  | moveRight n =>
    show CursorInv (EdState.moveCursorRight o n s)
    unfold EdState.moveCursorRight
    split_ifs <;> exact display_cursorInv o _
  | moveTo p => exact display_cursorInv o _
  | moveStartOfLine => exact display_cursorInv o _
  | moveEndOfLine => exact display_cursorInv o _
  | moveUp =>
    show CursorInv (EdState.moveUp o s)
    unfold EdState.moveUp
    by_cases h1 : EdState.showAutosuggestionsPred s = true
    · rw [if_pos h1]; exact h
    · rw [if_neg h1]
      by_cases h2 : EdState.isSearchB s = true
      · rw [if_pos h2]; exact display_cursorInv o _
      · rw [if_neg h2]; exact display_cursorInv o _
  | moveDown =>
    show CursorInv (EdState.moveDown o s)
    unfold EdState.moveDown
    by_cases h1 : EdState.showAutosuggestionsPred s = true
    · rw [if_pos h1]; exact h
    · rw [if_neg h1]
      by_cases h2 : EdState.isSearchB s = true
      · rw [if_pos h2]; exact display_cursorInv o _
      · rw [if_neg h2]; exact display_cursorInv o _
  | moveToStartOfHistory =>
    show CursorInv (EdState.moveToStartOfHistory o s)
    unfold EdState.moveToStartOfHistory
    split_ifs <;> exact display_cursorInv o _
  | moveToEndOfHistory =>
    show CursorInv (EdState.moveToEndOfHistory o s)
    unfold EdState.moveToEndOfHistory
    split_ifs <;> exact display_cursorInv o _
  | search fwd => exact display_cursorInv o _
  | undo =>
    show CursorInv (EdState.undoOp o s).2
    unfold EdState.undoOp
    rcases hu : (EdState.curBuf s).undo with ⟨did, b⟩
    cases did
    · exact display_cursorInv o _
    · exact display_cursorInv o _
  | redo =>
    show CursorInv (EdState.redoOp o s).2
    unfold EdState.redoOp
    rcases hu : (EdState.curBuf s).redo with ⟨did, b⟩
    cases did
    · exact display_cursorInv o _
    · exact display_cursorInv o _
  | revert =>
    show CursorInv (EdState.revertOp o s).2
    unfold EdState.revertOp
    rcases hu : (EdState.curBuf s).revert with ⟨did, b⟩
    cases did
    · exact display_cursorInv o _
    · exact display_cursorInv o _
  | clear => exact display_cursorInv o _
  | acceptAutosuggestion => exact display_cursorInv o _
  | handleNewline =>
    show CursorInv (EdState.handleNewline o s).2
    simp only [EdState.handleNewline]
    split_ifs
    · exact cursorInv_setHint _ (cursorInv_clearSearch (display_cursorInv o _))
    · split
      · exact display_cursorInv o _
      · exact cursorInv_setHint _ (displayRaw_cursorInv _)
    · exact cursorInv_setHint _ (cursorInv_clearSearch h)
    · split
      · exact display_cursorInv o _
      · exact cursorInv_setHint _ (displayRaw_cursorInv _)
  | skipCompletionsHint => exact cursorInv_congr h rfl rfl rfl
  | complete ct =>
    show CursorInv (EdState.completeHintAdvance o ct s)
    unfold EdState.completeHintAdvance
    split
    · exact h
    · exact display_cursorInv o _

/-- **C1.** After any sequence of public editor operations from a state
satisfying it, the cursor invariant holds: `0 ≤ cursor ≤ num_chars` of the
current buffer, and when `no_eol` is set and the buffer is non-empty,
`cursor ≤ num_chars - 1` (each redrawing operation even re-establishes it
unconditionally). -/
theorem cursorInv_runOps (o : Ctx) (ops : List EdOp) (s : EdState) (h : CursorInv s) :
    CursorInv (runOps o ops s) := by
  induction ops generalizing s with
  | nil => exact h
  | cons op rest ih => exact ih _ (cursorInv_applyOp o op s h)

/-- Witness for C1: a concrete operation sequence from the freshly
constructed editor. -/
theorem cursorInv_runOps_witness :
    CursorInv sampleEd ∧
      CursorInv (runOps sampleCtx
        [EdOp.insertChars ['a', 'b'], EdOp.moveLeft 1, EdOp.deleteBefore,
         EdOp.moveUp, EdOp.handleNewline] sampleEd) :=
  ⟨by decide, cursorInv_runOps sampleCtx _ sampleEd (by decide)⟩

/-! ## State-effect lemmas shared by the remaining claims -/

theorem Buffer.mutate_chars (f : List Char → List Char) (b : Buffer) :
    (b.mutate f).chars = f b.chars := by
  unfold Buffer.mutate
  split_ifs <;> rfl

theorem getD_set_self {α : Type} (l : List α) (i : Nat) (b d : α) (h : i < l.length) :
    (l.set i b).getD i d = b := by
  induction l generalizing i with
  | nil => simp at h
  | cons a t ih =>
    cases i with
    | zero => rfl
    | succ j => exact ih j (by simpa using h)

theorem setCurBuf_cursor (b : Buffer) (s : EdState) :
    (EdState.setCurBuf b s).cursor = s.cursor := by
  unfold EdState.setCurBuf
  split <;> rfl

theorem setCurBuf_noEol (b : Buffer) (s : EdState) :
    (EdState.setCurBuf b s).noEol = s.noEol := by
  unfold EdState.setCurBuf
  split <;> rfl

theorem setCurBuf_curHistoryLoc (b : Buffer) (s : EdState) :
    (EdState.setCurBuf b s).curHistoryLoc = s.curHistoryLoc := by
  unfold EdState.setCurBuf
  split <;> simp_all

theorem setCurBuf_reverseSearch (b : Buffer) (s : EdState) :
    (EdState.setCurBuf b s).reverseSearch = s.reverseSearch := by
  unfold EdState.setCurBuf
  split <;> rfl

theorem setCurBuf_forwardSearch (b : Buffer) (s : EdState) :
    (EdState.setCurBuf b s).forwardSearch = s.forwardSearch := by
  unfold EdState.setCurBuf
  split <;> rfl

theorem setCurBuf_hint (b : Buffer) (s : EdState) :
    (EdState.setCurBuf b s).showCompletionsHint = s.showCompletionsHint := by
  unfold EdState.setCurBuf
  split <;> rfl

theorem setCurBuf_historyLength (b : Buffer) (s : EdState) :
    (EdState.setCurBuf b s).history.length = s.history.length := by
  unfold EdState.setCurBuf
  split <;> simp [List.length_set]

/-- Writing the current buffer back and reading it again yields the written
buffer, provided a current history location is in range. -/
theorem curBuf_setCurBuf (b : Buffer) (s : EdState)
    (hloc : ∀ i, s.curHistoryLoc = some i → i < s.history.length) :
    EdState.curBuf (EdState.setCurBuf b s) = b := by
  unfold EdState.setCurBuf EdState.curBuf
  cases hc : s.curHistoryLoc with
  | none => simp only [hc]
  | some i =>
    simp only [hc]
    exact getD_set_self _ _ _ _ (hloc i hc)

/-- Outside search mode `display` only recomputes the autosuggestion and
applies the `_display` cursor clamp. -/
theorem display_of_notSearch (o : Ctx) (x : EdState) (hs : EdState.isSearchB x = false) :
    EdState.display o x =
      EdState.displayRaw { x with autosuggestion := EdState.currentAutosuggestion o x } := by
  unfold EdState.display
  rw [if_neg (by simp [hs])]

theorem displayRaw_showCompletionsHint (x : EdState) :
    (EdState.displayRaw x).showCompletionsHint = x.showCompletionsHint := rfl

theorem displayRaw_curBuf (x : EdState) :
    EdState.curBuf (EdState.displayRaw x) = EdState.curBuf x := rfl

theorem displayRaw_noEol (x : EdState) : (EdState.displayRaw x).noEol = x.noEol := rfl

theorem displayRaw_curHistoryLoc (x : EdState) :
    (EdState.displayRaw x).curHistoryLoc = x.curHistoryLoc := rfl

/-- When the cursor already satisfies the invariant, the `_display` clamps
do not move it. -/
theorem displayRaw_cursor_id (x : EdState)
    (h1 : x.cursor ≤ (EdState.curBuf x).chars.length)
    (h2 : x.noEol = true → (EdState.curBuf x).chars.length ≠ 0 →
      x.cursor ≤ (EdState.curBuf x).chars.length - 1) :
    (EdState.displayRaw x).cursor = x.cursor := by
  unfold EdState.displayRaw
  dsimp only
  split_ifs with ha hb hc
  · omega
  · omega
  · obtain ⟨hno, hne, heq⟩ := hc
    have := h2 hno (by omega)
    omega
  · rfl

/-- `display` leaves the completions hint untouched. -/
theorem display_showCompletionsHint (o : Ctx) (x : EdState) :
    (EdState.display o x).showCompletionsHint = x.showCompletionsHint := by
  unfold EdState.display EdState.refreshSearch
  split_ifs <;> rfl

/-- `display` leaves `no_eol` untouched. -/
theorem display_noEol (o : Ctx) (x : EdState) :
    (EdState.display o x).noEol = x.noEol := by
  unfold EdState.display EdState.refreshSearch
  split_ifs <;> rfl

/-- `display` leaves the new buffer untouched. -/
theorem display_newBuf (o : Ctx) (x : EdState) :
    (EdState.display o x).newBuf = x.newBuf := by
  unfold EdState.display EdState.refreshSearch
  split_ifs <;> rfl

/-- `display` leaves the history untouched. -/
theorem display_history (o : Ctx) (x : EdState) :
    (EdState.display o x).history = x.history := by
  unfold EdState.display EdState.refreshSearch
  split_ifs <;> rfl

/-- Outside search mode `display` leaves the current buffer untouched. -/
theorem display_curBuf_of_notSearch (o : Ctx) (x : EdState)
    (hs : EdState.isSearchB x = false) :
    EdState.curBuf (EdState.display o x) = EdState.curBuf x := by
  rw [display_of_notSearch o x hs]
  rfl

/-- Outside search mode `display` leaves the history selection untouched. -/
theorem display_curHistoryLoc_of_notSearch (o : Ctx) (x : EdState)
    (hs : EdState.isSearchB x = false) :
    (EdState.display o x).curHistoryLoc = x.curHistoryLoc := by
  rw [display_of_notSearch o x hs]
  rfl

/-- Outside search mode `display` does not move an in-range cursor. -/
theorem display_cursor_id_of_notSearch (o : Ctx) (x : EdState)
    (hs : EdState.isSearchB x = false)
    (h1 : x.cursor ≤ (EdState.curBuf x).chars.length)
    (h2 : x.noEol = true → (EdState.curBuf x).chars.length ≠ 0 →
      x.cursor ≤ (EdState.curBuf x).chars.length - 1) :
    (EdState.display o x).cursor = x.cursor := by
  rw [display_of_notSearch o x hs]
  exact displayRaw_cursor_id _ h1 h2

theorem isSearchB_setCurBuf (b : Buffer) (s : EdState) :
    EdState.isSearchB (EdState.setCurBuf b s) = EdState.isSearchB s := by
  unfold EdState.isSearchB
  rw [setCurBuf_reverseSearch, setCurBuf_forwardSearch]

/-- The word lookup only depends on the current buffer and the cursor. -/
theorem getWordBeforeCursor_congr (o : Ctx) (ig : Bool) {x y : EdState}
    (hb : EdState.curBuf x = EdState.curBuf y) (hc : x.cursor = y.cursor) :
    EdState.getWordBeforeCursor o ig x = EdState.getWordBeforeCursor o ig y := by
  unfold EdState.getWordBeforeCursor
  rw [hb, hc]

/-- The state effect of the `cursor := c; no_newline := true; display()`
tail shared by the editing operations, outside search mode with `no_eol`
clear and an in-range target cursor. -/
theorem displayWrap_state (o : Ctx) (t : EdState) (c : Nat)
    (hsearch : EdState.isSearchB t = false) (hnoeol : t.noEol = false)
    (hc : c ≤ (EdState.curBuf t).chars.length) :
    EdState.curBuf (EdState.display o { t with cursor := c, noNewline := true }) =
        EdState.curBuf t ∧
    (EdState.display o { t with cursor := c, noNewline := true }).cursor = c ∧
    (EdState.display o { t with cursor := c, noNewline := true }).noEol = false ∧
    EdState.isSearchB (EdState.display o { t with cursor := c, noNewline := true }) = false ∧
    (EdState.display o { t with cursor := c, noNewline := true }).curHistoryLoc =
        t.curHistoryLoc ∧
    (EdState.display o { t with cursor := c, noNewline := true }).history = t.history ∧
    (EdState.display o { t with cursor := c, noNewline := true }).newBuf = t.newBuf ∧
    (EdState.display o { t with cursor := c, noNewline := true }).showCompletionsHint =
        t.showCompletionsHint := by
  have hs' : EdState.isSearchB { t with cursor := c, noNewline := true } = false := hsearch
  rw [display_of_notSearch o _ hs']
  refine ⟨rfl, ?_, hnoeol, hsearch, rfl, rfl, rfl, rfl⟩
  exact displayRaw_cursor_id _ hc (fun hno => absurd (hnoeol ▸ hno) (by simp))

/-- The state effect of storing the completions hint and redrawing,
outside search mode with `no_eol` clear and an in-range cursor. -/
theorem displayWrapHint_state (o : Ctx) (t : EdState)
    (v : Option (List String × Option Nat))
    (hsearch : EdState.isSearchB t = false) (hnoeol : t.noEol = false)
    (hc : t.cursor ≤ (EdState.curBuf t).chars.length) :
    EdState.curBuf
        (EdState.display o { t with showCompletionsHint := v, noNewline := true }) =
        EdState.curBuf t ∧
    (EdState.display o
        { t with showCompletionsHint := v, noNewline := true }).showCompletionsHint = v ∧
    (EdState.display o { t with showCompletionsHint := v, noNewline := true }).cursor =
        t.cursor := by
  have hs' : EdState.isSearchB { t with showCompletionsHint := v, noNewline := true } =
      false := hsearch
  rw [display_of_notSearch o _ hs']
  refine ⟨rfl, rfl, ?_⟩
  exact displayRaw_cursor_id _ hc (fun hno => absurd (hnoeol ▸ hno) (by simp))

/-- The full state effect of `delete_word_before_cursor(false)` when the
classifier finds a word whose start is left of the in-range cursor, outside
search mode with `no_eol` clear. -/
theorem deleteWordBeforeCursor_state (o : Ctx) (x : EdState) (start e0 : Nat)
    (hword : EdState.getWordBeforeCursor o false x = some (start, e0))
    (hstart : start ≤ x.cursor)
    (hcur : x.cursor ≤ (EdState.curBuf x).chars.length)
    (hnoeol : x.noEol = false)
    (hsearch : EdState.isSearchB x = false)
    (hloc : ∀ j, x.curHistoryLoc = some j → j < x.history.length) :
    (EdState.curBuf (EdState.deleteWordBeforeCursor o false x)).chars =
        (EdState.curBuf x).chars.take start ++ (EdState.curBuf x).chars.drop x.cursor ∧
    (EdState.deleteWordBeforeCursor o false x).cursor = start ∧
    (EdState.deleteWordBeforeCursor o false x).noEol = false ∧
    EdState.isSearchB (EdState.deleteWordBeforeCursor o false x) = false ∧
    (EdState.deleteWordBeforeCursor o false x).curHistoryLoc = x.curHistoryLoc ∧
    (EdState.deleteWordBeforeCursor o false x).history.length = x.history.length ∧
    (EdState.deleteWordBeforeCursor o false x).showCompletionsHint =
        x.showCompletionsHint := by
  unfold EdState.deleteWordBeforeCursor Buffer.removeRange
  rw [hword]
  dsimp only
  set T := EdState.setCurBuf
    ((EdState.curBuf x).mutate fun l => l.take start ++ l.drop x.cursor) x with hT
  have hTcur : T.cursor = x.cursor := setCurBuf_cursor _ _
  have hTbuf : EdState.curBuf T =
      (EdState.curBuf x).mutate (fun l => l.take start ++ l.drop x.cursor) :=
    curBuf_setCurBuf _ _ hloc
  have hBchars : (EdState.curBuf T).chars =
      (EdState.curBuf x).chars.take start ++ (EdState.curBuf x).chars.drop x.cursor := by
    rw [hTbuf, Buffer.mutate_chars]
  have h1 : EdState.isSearchB T = false := (isSearchB_setCurBuf _ _).trans hsearch
  have h2 : T.noEol = false := (setCurBuf_noEol _ _).trans hnoeol
  have hClen : T.cursor -
      (min x.cursor (EdState.curBuf x).chars.length -
        min start (EdState.curBuf x).chars.length) = start := by
    rw [hTcur]
    omega
  have h3 : T.cursor -
      (min x.cursor (EdState.curBuf x).chars.length -
        min start (EdState.curBuf x).chars.length) ≤
      (EdState.curBuf T).chars.length := by
    rw [hClen, hBchars]
    simp only [List.length_append, List.length_take, List.length_drop]
    omega
  obtain ⟨w1, w2, w3, w4, w5, w6, w7, w8⟩ := displayWrap_state o T
    (T.cursor - (min x.cursor (EdState.curBuf x).chars.length -
      min start (EdState.curBuf x).chars.length)) h1 h2 h3
  exact ⟨(congrArg Buffer.chars w1).trans hBchars, w2.trans hClen, w3, w4,
    w5.trans (setCurBuf_curHistoryLoc _ _),
    (congrArg List.length w6).trans (setCurBuf_historyLength _ _),
    w8.trans (setCurBuf_hint _ _)⟩

/-- The full state effect of `insert_chars_after_cursor`, outside search
mode with `no_eol` clear and an in-range cursor. -/
theorem insertCharsAfterCursor_state (o : Ctx) (x : EdState) (cand : List Char)
    (hcur : x.cursor ≤ (EdState.curBuf x).chars.length)
    (hnoeol : x.noEol = false)
    (hsearch : EdState.isSearchB x = false)
    (hloc : ∀ j, x.curHistoryLoc = some j → j < x.history.length) :
    (EdState.curBuf (EdState.insertCharsAfterCursor o cand x)).chars =
        (EdState.curBuf x).chars.take x.cursor ++ cand ++
          (EdState.curBuf x).chars.drop x.cursor ∧
    (EdState.insertCharsAfterCursor o cand x).cursor = x.cursor + cand.length ∧
    (EdState.insertCharsAfterCursor o cand x).noEol = false ∧
    EdState.isSearchB (EdState.insertCharsAfterCursor o cand x) = false ∧
    (EdState.insertCharsAfterCursor o cand x).curHistoryLoc = x.curHistoryLoc ∧
    (EdState.insertCharsAfterCursor o cand x).history.length = x.history.length ∧
    (EdState.insertCharsAfterCursor o cand x).showCompletionsHint =
        x.showCompletionsHint := by
  unfold EdState.insertCharsAfterCursor Buffer.insertAt
  dsimp only
  set T := EdState.setCurBuf
    ((EdState.curBuf x).mutate fun l => l.take x.cursor ++ cand ++ l.drop x.cursor) x with hT
  have hTcur : T.cursor = x.cursor := setCurBuf_cursor _ _
  have hTbuf : EdState.curBuf T =
      (EdState.curBuf x).mutate (fun l => l.take x.cursor ++ cand ++ l.drop x.cursor) :=
    curBuf_setCurBuf _ _ hloc
  have hBchars : (EdState.curBuf T).chars =
      (EdState.curBuf x).chars.take x.cursor ++ cand ++
        (EdState.curBuf x).chars.drop x.cursor := by
    rw [hTbuf, Buffer.mutate_chars]
  have h1 : EdState.isSearchB T = false := (isSearchB_setCurBuf _ _).trans hsearch
  have h2 : T.noEol = false := (setCurBuf_noEol _ _).trans hnoeol
  have h3 : T.cursor + cand.length ≤ (EdState.curBuf T).chars.length := by
    rw [hTcur, hBchars]
    simp only [List.length_append, List.length_take, List.length_drop]
    omega
  obtain ⟨w1, w2, w3, w4, w5, w6, w7, w8⟩ :=
    displayWrap_state o T (T.cursor + cand.length) h1 h2 h3
  exact ⟨(congrArg Buffer.chars w1).trans hBchars,
    w2.trans (by rw [hTcur]), w3, w4,
    w5.trans (setCurBuf_curHistoryLoc _ _),
    (congrArg List.length w6).trans (setCurBuf_historyLength _ _),
    w8.trans (setCurBuf_hint _ _)⟩

/-! ## C4: completion-hint highlight advancing -/

/-- **C4 (counterexample).** On a 6-cell terminal with the three candidates
`aa`, `bb`, `cc`, the hint grid is rendered in a single column, yet `Down`
advances the highlight from 0 to 2 — not by the rendered column count, as
the claim states. -/
theorem completeDown_counterexample :
    colsRendered 6 (maxWordSize ["aa", "bb", "cc"]) = 1 ∧
    nextHighlight CompleteType.Down (some 0) 3 6 (maxWordSize ["aa", "bb", "cc"]) = 2 ∧
    nextHighlight CompleteType.Down (some 0) 3 6 (maxWordSize ["aa", "bb", "cc"]) ≠
      0 + colsRendered 6 (maxWordSize ["aa", "bb", "cc"]) := by
  decide

/-- **C4 (amended).** With an active completions hint, `Next` advances the
highlight cyclically by one and `Prev` cyclically by one backwards, while
`Up` and `Down` move by `cols_items - 1` positions, where `cols_items =
max(1, terminal_width / longest_candidate)` — a stride that can differ from
the rendered column count — staying in place when the step would leave the
candidate range; the new highlight is stored in the hint and the highlighted
candidate is spliced in place of the word before the cursor. -/
theorem completeHintAdvance_amended (o : Ctx) (s : EdState) (ct : CompleteType)
    (cs : List String) (i start e0 i' ci : Nat)
    (hhint : s.showCompletionsHint = some (cs, some i))
    (hlen : 2 ≤ cs.length) (hi : i < cs.length)
    (hi' : i' = nextHighlight ct (some i) cs.length o.terminalWidth (maxWordSize cs))
    (hci : ci = colsItems o.terminalWidth (maxWordSize cs))
    (hword : EdState.getWordBeforeCursor o false s = some (start, e0))
    (hstart : start ≤ s.cursor)
    (hcur : s.cursor ≤ (EdState.curBuf s).chars.length)
    (hnoeol : s.noEol = false)
    (hsearch : EdState.isSearchB s = false)
    (hloc : ∀ j, s.curHistoryLoc = some j → j < s.history.length) :
    i' < cs.length ∧
    (ct = CompleteType.Next → i' = (i + 1) % cs.length) ∧
    (ct = CompleteType.Prev → i' = (i + (cs.length - 1)) % cs.length) ∧
    (ct = CompleteType.Up → (i + 1 < ci → i' = i) ∧ (ci ≤ i + 1 → i' + ci = i + 1)) ∧
    (ct = CompleteType.Down →
      (cs.length ≤ i + (ci - 1) → i' = i) ∧
      (i + (ci - 1) < cs.length → i' = i + (ci - 1))) ∧
    (EdState.completeHintAdvance o ct s).showCompletionsHint = some (cs, some i') ∧
    (EdState.curBuf (EdState.completeHintAdvance o ct s)).chars =
      (EdState.curBuf s).chars.take start ++ (cs.getD i' "").data ++
        (EdState.curBuf s).chars.drop s.cursor := by
  have hci1 : 1 ≤ colsItems o.terminalWidth (maxWordSize cs) := Nat.le_max_left 1 _
  subst hi' hci
  -- the spliced state, built from the two operation characterizations
  have hword1 : EdState.getWordBeforeCursor o false
      { s with showCompletionsHint := none } = some (start, e0) :=
    (getWordBeforeCursor_congr o false rfl rfl).trans hword
  have D := deleteWordBeforeCursor_state o { s with showCompletionsHint := none }
    start e0 hword1 hstart hcur hnoeol hsearch hloc
  have hD1 : (EdState.curBuf (EdState.deleteWordBeforeCursor o false
      { s with showCompletionsHint := none })).chars =
      (EdState.curBuf s).chars.take start ++ (EdState.curBuf s).chars.drop s.cursor := D.1
  have hD2 : (EdState.deleteWordBeforeCursor o false
      { s with showCompletionsHint := none }).cursor = start := D.2.1
  have hDloc : (EdState.deleteWordBeforeCursor o false
      { s with showCompletionsHint := none }).curHistoryLoc = s.curHistoryLoc := D.2.2.2.2.1
  have hDhlen : (EdState.deleteWordBeforeCursor o false
      { s with showCompletionsHint := none }).history.length = s.history.length :=
    D.2.2.2.2.2.1
  have hdlen : (EdState.curBuf (EdState.deleteWordBeforeCursor o false
      { s with showCompletionsHint := none })).chars.length =
      start + ((EdState.curBuf s).chars.length - s.cursor) := by
    rw [hD1]
    simp only [List.length_append, List.length_take, List.length_drop]
    omega
  have hcur_d : (EdState.deleteWordBeforeCursor o false
      { s with showCompletionsHint := none }).cursor ≤
      (EdState.curBuf (EdState.deleteWordBeforeCursor o false
        { s with showCompletionsHint := none })).chars.length := by
    rw [hD2, hdlen]
    omega
  have hloc_d : ∀ j, (EdState.deleteWordBeforeCursor o false
      { s with showCompletionsHint := none }).curHistoryLoc = some j →
      j < (EdState.deleteWordBeforeCursor o false
        { s with showCompletionsHint := none }).history.length := by
    intro j hj
    rw [hDloc] at hj
    rw [hDhlen]
    exact hloc j hj
  have I := insertCharsAfterCursor_state o
    (EdState.deleteWordBeforeCursor o false { s with showCompletionsHint := none })
    (cs.getD (nextHighlight ct (some i) cs.length o.terminalWidth (maxWordSize cs)) "").data
    hcur_d D.2.2.1 D.2.2.2.1 hloc_d
  have htlen : ((EdState.curBuf s).chars.take start).length = start := by
    rw [List.length_take]
    omega
  have hchain : (EdState.curBuf (EdState.insertCharsAfterCursor o
      (cs.getD (nextHighlight ct (some i) cs.length o.terminalWidth (maxWordSize cs)) "").data
      (EdState.deleteWordBeforeCursor o false
        { s with showCompletionsHint := none }))).chars =
      (EdState.curBuf s).chars.take start ++
        (cs.getD (nextHighlight ct (some i) cs.length o.terminalWidth
          (maxWordSize cs)) "").data ++
        (EdState.curBuf s).chars.drop s.cursor := by
    rw [I.1, hD2, hD1, List.take_left' htlen, List.drop_left' htlen]
  have hn3cur : (EdState.insertCharsAfterCursor o
      (cs.getD (nextHighlight ct (some i) cs.length o.terminalWidth (maxWordSize cs)) "").data
      (EdState.deleteWordBeforeCursor o false
        { s with showCompletionsHint := none })).cursor ≤
      (EdState.curBuf (EdState.insertCharsAfterCursor o
        (cs.getD (nextHighlight ct (some i) cs.length o.terminalWidth (maxWordSize cs)) "").data
        (EdState.deleteWordBeforeCursor o false
          { s with showCompletionsHint := none }))).chars.length := by
    rw [I.2.1, hD2, hchain]
    simp only [List.length_append, List.length_take, List.length_drop]
    omega
  have W := displayWrapHint_state o
    (EdState.insertCharsAfterCursor o
      (cs.getD (nextHighlight ct (some i) cs.length o.terminalWidth (maxWordSize cs)) "").data
      (EdState.deleteWordBeforeCursor o false { s with showCompletionsHint := none }))
    (some (cs, some (nextHighlight ct (some i) cs.length o.terminalWidth (maxWordSize cs))))
    I.2.2.2.1 I.2.2.1 hn3cur
  refine ⟨?_, ?_, ?_, ?_, ?_, ?_, ?_⟩
  · cases ct <;> simp only [nextHighlight] <;> split_ifs <;> omega
  · intro h
    subst h
    simp only [nextHighlight]
    split_ifs with hc1
    · have he : i + 1 = cs.length := by omega
      rw [he, Nat.mod_self]
    · rw [Nat.mod_eq_of_lt (by omega : i + 1 < cs.length)]
      omega
  · intro h
    subst h
    simp only [nextHighlight]
    split_ifs with hc1
    · rw [hc1, Nat.zero_add,
        Nat.mod_eq_of_lt (by omega : cs.length - 1 < cs.length)]
    · have he : i + (cs.length - 1) = (i - 1) + cs.length := by omega
      rw [he, Nat.add_mod_right, Nat.mod_eq_of_lt (by omega : i - 1 < cs.length)]
      omega
  · intro h
    subst h
    simp only [nextHighlight]
    constructor
    · intro hlt
      rw [if_pos hlt]
    · intro hge
      rw [if_neg (by omega)]
      omega
  · intro h
    subst h
    simp only [nextHighlight]
    constructor
    · intro hge
      rw [if_pos (by omega)]
    · intro hlt
      rw [if_neg (by omega)]
      omega
  · unfold EdState.completeHintAdvance
    rw [hhint]
    dsimp only
    exact W.2.1
  · unfold EdState.completeHintAdvance
    rw [hhint]
    dsimp only
    exact (congrArg Buffer.chars W.1).trans hchain

/-- Witness for C4 (amended): `Down` on the concrete three-candidate hint
jumps from 0 to 2 and splices `cc` over the word `ab`. -/
theorem completeHintAdvance_amended_witness :
    (EdState.completeHintAdvance sampleCompleteCtx CompleteType.Down
      sampleCompleteEd).showCompletionsHint = some (["aa", "bb", "cc"], some 2) ∧
    (EdState.curBuf (EdState.completeHintAdvance sampleCompleteCtx CompleteType.Down
      sampleCompleteEd)).chars = ['c', 'c'] := by
  have h := completeHintAdvance_amended sampleCompleteCtx sampleCompleteEd
    CompleteType.Down ["aa", "bb", "cc"] 0 0 2 2 3 (by decide) (by decide) (by decide)
    (by decide) (by decide) (by decide) (by decide) (by decide) (by decide) (by decide)
    (fun j hj => Option.noConfusion hj)
  exact ⟨h.2.2.2.2.2.1, h.2.2.2.2.2.2.trans (by decide)⟩

/-! ## C3: dot-repeat count and replay -/

/-- **C3 (counterexample).** With typed count 1 and stored `last_count` 2,
`.` runs with count 1 — not `max(count, last_count, 1) = 2` as the claim
states. -/
theorem dotCount_counterexample :
    dotNewCount 1 2 = 1 ∧ max (max 1 2) 1 = 2 ∧ dotNewCount 1 2 ≠ max (max 1 2) 1 := by
  decide

/-- **C3 (amended).** `.` replays `last_insert`, then the captured
`last_command` keys, then Esc (the Esc being issued when an entering-insert
key is recorded), and the effective count is the typed count when non-zero,
otherwise `max(last_count, 1)`. -/
theorem dotRepeat_amended (count lastCount : Nat) (li : Option Key) (ks : List Key)
    (k : Key) (h : li = some k) :
    repeatDispatch li ks = k :: (ks ++ [Key.Esc]) ∧
    dotNewCount count lastCount = (if count = 0 then max lastCount 1 else count) := by
  constructor
  · subst h
    simp [repeatDispatch]
  · unfold dotNewCount
    split_ifs <;> omega

/-- Witness for C3 (amended): the concrete replay of an `i`-entered insert
of `x`. -/
theorem dotRepeat_amended_witness :
    repeatDispatch (some (Key.Char 'i')) [Key.Char 'x'] =
      Key.Char 'i' :: ([Key.Char 'x'] ++ [Key.Esc]) ∧
    dotNewCount 0 5 = (if (0 : Nat) = 0 then max 5 1 else 0) :=
  dotRepeat_amended 0 5 (some (Key.Char 'i')) [Key.Char 'x'] (Key.Char 'i') rfl

/-! ## C6: digit accumulation saturates, `0` moves when the count is zero -/

set_option maxRecDepth 8192 in
/-- **C6.** Every normal-mode digit press updates the count by
`count * 10 + digit` with saturating `u32` arithmetic — in particular
sixty-plus digit presses (also ending in zero) saturate at `u32::MAX`
without wrapping — and the key `0` is a digit only when the count is
non-zero, otherwise it is the move-to-start-of-line movement. -/
theorem viDigit_saturates (fuel : Nat) (o : Ctx) (st : ViState) (count d : Nat)
    (hm : stackMode st.modeStack = Mode.Normal)
    (hcount : count ≤ U32MAX) (hd : d ≤ 9) :
    viDigitStep count d = min (count * 10 + d) U32MAX ∧
    viDigitStep count d ≤ U32MAX ∧
    List.foldl viDigitStep 0 (List.replicate 61 9) = U32MAX ∧
    List.foldl viDigitStep 0 (List.replicate 61 9 ++ [0]) = U32MAX ∧
    (st.count = 0 →
      ViState.handleKeyCore o (fuel + 1) st (Key.Char '0') =
        some (ViState.popModeAfterMovement o
          { st with ed := EdState.moveCursorToStartOfLine o st.ed })) ∧
    (st.count ≠ 0 →
      ViState.handleKeyCore o (fuel + 1) st (Key.Char '0') =
        some { st with count := viDigitStep st.count 0 }) := by
  have hM : U32MAX = 4294967295 := by norm_num [U32MAX]
  refine ⟨?_, ?_, by decide, by decide, ?_, ?_⟩
  · simp only [viDigitStep, satAdd, satMul, hM]
    omega
  · simp only [viDigitStep, satAdd, satMul, hM]
    omega
  · intro h0
    unfold ViState.handleKeyCore
    rw [hm]
    unfold ViState.handleKeyNormal
    simp [h0]
  · intro h0
    unfold ViState.handleKeyCore
    rw [hm]
    unfold ViState.handleKeyNormal
    simp [h0, viDigitStep]

/-- Witness for C6 at a concrete normal-mode state and digit. -/
theorem viDigit_saturates_witness : viDigitStep 5 3 ≤ U32MAX :=
  (viDigit_saturates 0 sampleCtx sampleViNormal 5 3 (by decide) (by decide)
    (by decide)).2.1

/-! ## `display` identity lemmas for states whose search selection is clear -/

/-- When the cursor satisfies the invariant and any active search has a
cleared history selection, `display` does not move the cursor. -/
theorem display_cursor_id (o : Ctx) (x : EdState) (hInv : CursorInv x)
    (hsl : EdState.isSearchB x = true → x.curHistoryLoc = none) :
    (EdState.display o x).cursor = x.cursor := by
  obtain ⟨h1, h2⟩ := hInv
  unfold EdState.display
  split_ifs with hc
  · have hn : x.curHistoryLoc = none := hsl hc.1
    have hb : EdState.curBuf x = x.newBuf := by
      unfold EdState.curBuf
      rw [hn]
    rw [hb] at h1 h2
    exact displayRaw_cursor_id _ h1 h2
  · exact displayRaw_cursor_id _ h1 h2

/-- Under the same conditions `display` leaves the current buffer alone. -/
theorem display_curBuf_id (o : Ctx) (x : EdState)
    (hsl : EdState.isSearchB x = true → x.curHistoryLoc = none) :
    EdState.curBuf (EdState.display o x) = EdState.curBuf x := by
  unfold EdState.display
  split_ifs with hc
  · have hn : x.curHistoryLoc = none := hsl hc.1
    show x.newBuf = EdState.curBuf x
    unfold EdState.curBuf
    rw [hn]
  · rfl

/-- Under the same conditions `display` leaves the history selection alone. -/
theorem display_curHistoryLoc_id (o : Ctx) (x : EdState)
    (hsl : EdState.isSearchB x = true → x.curHistoryLoc = none) :
    (EdState.display o x).curHistoryLoc = x.curHistoryLoc := by
  unfold EdState.display
  split_ifs with hc
  · exact (hsl hc.1).symm
  · rfl

/-- The cursor after `display` is exactly the `_display` clamp of the
cursor against the current buffer. -/
theorem display_cursor_clamp (o : Ctx) (x : EdState)
    (hsl : EdState.isSearchB x = true → x.curHistoryLoc = none) :
    (EdState.display o x).cursor =
      (let n := (EdState.curBuf x).chars.length
       let c := if n < x.cursor then n else x.cursor
       if x.noEol ∧ c ≠ 0 ∧ c = n then c - 1 else c) := by
  unfold EdState.display
  split_ifs with hc
  · have hn : x.curHistoryLoc = none := hsl hc.1
    have hb : EdState.curBuf x = x.newBuf := by
      unfold EdState.curBuf
      rw [hn]
    rw [hb]
    rfl
  · rfl

/-- The state effect of `move_cursor_to_end_of_line`. -/
theorem moveCursorToEndOfLine_state (o : Ctx) (x : EdState)
    (hsl : EdState.isSearchB x = true → x.curHistoryLoc = none) :
    EdState.curBuf (EdState.moveCursorToEndOfLine o x) = EdState.curBuf x ∧
    (EdState.moveCursorToEndOfLine o x).noEol = x.noEol ∧
    (EdState.moveCursorToEndOfLine o x).cursor =
      (if x.noEol = true ∧ (EdState.curBuf x).chars.length ≠ 0
       then (EdState.curBuf x).chars.length - 1
       else (EdState.curBuf x).chars.length) := by
  unfold EdState.moveCursorToEndOfLine
  refine ⟨display_curBuf_id o _ hsl, display_noEol o _, ?_⟩
  rw [display_cursor_clamp o
    { x with cursor := (EdState.curBuf x).numChars, noNewline := true } hsl]
  show (let n := (EdState.curBuf x).chars.length
        let c := if n < (EdState.curBuf x).numChars then n else (EdState.curBuf x).numChars
        if x.noEol ∧ c ≠ 0 ∧ c = n then c - 1 else c) = _
  unfold Buffer.numChars
  dsimp only
  split_ifs <;> simp_all <;> omega

/-- After `move_cursor_to_end_of_line` the cursor reports end-of-line. -/
theorem moveCursorToEndOfLine_atEnd (o : Ctx) (x : EdState)
    (hsl : EdState.isSearchB x = true → x.curHistoryLoc = none) :
    EdState.cursorIsAtEndOfLine (EdState.moveCursorToEndOfLine o x) = true := by
  obtain ⟨hb, hno, hcur⟩ := moveCursorToEndOfLine_state o x hsl
  unfold EdState.cursorIsAtEndOfLine Buffer.numChars
  rw [hb, hno, hcur]
  split_ifs <;> simp_all <;> omega

/-! ## C7: undo, redo and revert surface the buffer's report -/

/-- In the Buffer contract a refused `undo` performs no action. -/
theorem Buffer.undo_id (b : Buffer) (h : b.undo.1 = false) : b.undo.2 = b := by
  unfold Buffer.undo at *
  cases hs : b.undoStack with
  | nil => rfl
  | cons p rest => rw [hs] at h; simp at h

/-- In the Buffer contract a refused `redo` performs no action. -/
theorem Buffer.redo_id (b : Buffer) (h : b.redo.1 = false) : b.redo.2 = b := by
  unfold Buffer.redo at *
  cases hs : b.redoStack with
  | nil => rfl
  | cons p rest => rw [hs] at h; simp at h

/-- In the Buffer contract a refused `revert` performs no action. -/
theorem Buffer.revert_id (b : Buffer) (h : b.revert.1 = false) : b.revert.2 = b := by
  unfold Buffer.revert at *
  cases hs : b.undoStack with
  | nil => rfl
  | cons p rest => rw [hs] at h; simp at h

/-- The search-selection hypothesis transfers to the written-back state. -/
theorem hsl_setCurBuf {s : EdState} (b : Buffer)
    (hsl : EdState.isSearchB s = true → s.curHistoryLoc = none) :
    EdState.isSearchB (EdState.setCurBuf b s) = true →
      (EdState.setCurBuf b s).curHistoryLoc = none := fun h =>
  (setCurBuf_curHistoryLoc b s).trans (hsl ((isSearchB_setCurBuf b s).symm.trans h))

/-- The success path of undo/redo/revert: write back, snap to end of line. -/
theorem bufferSuccess_atEnd (o : Ctx) (s : EdState) (b : Buffer)
    (hsl : EdState.isSearchB s = true → s.curHistoryLoc = none) :
    EdState.cursorIsAtEndOfLine
      (EdState.moveCursorToEndOfLine o (EdState.setCurBuf b s)) = true :=
  moveCursorToEndOfLine_atEnd o _ (hsl_setCurBuf b hsl)

/-- The refusal path of undo/redo/revert: writing the unchanged buffer back
and redrawing leaves the cursor, the current buffer and the history
selection unchanged. -/
theorem bufferRefusal_id (o : Ctx) (s : EdState) (b : Buffer)
    (hInv : CursorInv s)
    (hsl : EdState.isSearchB s = true → s.curHistoryLoc = none)
    (hloc : ∀ j, s.curHistoryLoc = some j → j < s.history.length)
    (hb : b = EdState.curBuf s) :
    (EdState.display o { EdState.setCurBuf b s with noNewline := true }).cursor =
        s.cursor ∧
    EdState.curBuf
        (EdState.display o { EdState.setCurBuf b s with noNewline := true }) =
        EdState.curBuf s ∧
    (EdState.display o
        { EdState.setCurBuf b s with noNewline := true }).curHistoryLoc =
        s.curHistoryLoc := by
  have hbZ : EdState.curBuf { EdState.setCurBuf b s with noNewline := true } =
      EdState.curBuf s := (curBuf_setCurBuf b s hloc).trans hb
  have hInvZ : CursorInv { EdState.setCurBuf b s with noNewline := true } :=
    cursorInv_congr hInv (setCurBuf_cursor b s) hbZ (setCurBuf_noEol b s)
  have hslZ : EdState.isSearchB { EdState.setCurBuf b s with noNewline := true } = true →
      ({ EdState.setCurBuf b s with noNewline := true } : EdState).curHistoryLoc =
        none := hsl_setCurBuf b hsl
  exact ⟨(display_cursor_id o _ hInvZ hslZ).trans (setCurBuf_cursor b s),
    (display_curBuf_id o _ hslZ).trans hbZ,
    (display_curHistoryLoc_id o _ hslZ).trans (setCurBuf_curHistoryLoc b s)⟩

/-- **C7.** `undo`, `redo` and `revert` each return the boolean reported by
the current buffer; when it is `true` the cursor is snapped to the end of
the line, and when it is `false` the cursor, the current buffer and the
history selection are left unchanged — only a redraw is performed. -/
theorem undoRedoRevert_surface (o : Ctx) (s : EdState)
    (hInv : CursorInv s)
    (hsl : EdState.isSearchB s = true → s.curHistoryLoc = none)
    (hloc : ∀ j, s.curHistoryLoc = some j → j < s.history.length) :
    ((EdState.undoOp o s).1 = ((EdState.curBuf s).undo).1 ∧
      (((EdState.curBuf s).undo).1 = true →
        EdState.cursorIsAtEndOfLine (EdState.undoOp o s).2 = true) ∧
      (((EdState.curBuf s).undo).1 = false →
        (EdState.undoOp o s).2.cursor = s.cursor ∧
        EdState.curBuf (EdState.undoOp o s).2 = EdState.curBuf s ∧
        (EdState.undoOp o s).2.curHistoryLoc = s.curHistoryLoc)) ∧
    ((EdState.redoOp o s).1 = ((EdState.curBuf s).redo).1 ∧
      (((EdState.curBuf s).redo).1 = true →
        EdState.cursorIsAtEndOfLine (EdState.redoOp o s).2 = true) ∧
      (((EdState.curBuf s).redo).1 = false →
        (EdState.redoOp o s).2.cursor = s.cursor ∧
        EdState.curBuf (EdState.redoOp o s).2 = EdState.curBuf s ∧
        (EdState.redoOp o s).2.curHistoryLoc = s.curHistoryLoc)) ∧
    ((EdState.revertOp o s).1 = ((EdState.curBuf s).revert).1 ∧
      (((EdState.curBuf s).revert).1 = true →
        EdState.cursorIsAtEndOfLine (EdState.revertOp o s).2 = true) ∧
      (((EdState.curBuf s).revert).1 = false →
        (EdState.revertOp o s).2.cursor = s.cursor ∧
        EdState.curBuf (EdState.revertOp o s).2 = EdState.curBuf s ∧
        (EdState.revertOp o s).2.curHistoryLoc = s.curHistoryLoc)) := by
  refine ⟨?_, ?_, ?_⟩
  · have hid := Buffer.undo_id (EdState.curBuf s)
    unfold EdState.undoOp
    rcases hu : (EdState.curBuf s).undo with ⟨did, b⟩
    rw [hu] at hid
    cases did
    · exact ⟨rfl, fun h => by simp at h,
        fun _ => bufferRefusal_id o s b hInv hsl hloc (hid rfl)⟩
    · exact ⟨rfl, fun _ => bufferSuccess_atEnd o s b hsl, fun h => by simp at h⟩
  · have hid := Buffer.redo_id (EdState.curBuf s)
    unfold EdState.redoOp
    rcases hu : (EdState.curBuf s).redo with ⟨did, b⟩
    rw [hu] at hid
    cases did
    · exact ⟨rfl, fun h => by simp at h,
        fun _ => bufferRefusal_id o s b hInv hsl hloc (hid rfl)⟩
    · exact ⟨rfl, fun _ => bufferSuccess_atEnd o s b hsl, fun h => by simp at h⟩
  · have hid := Buffer.revert_id (EdState.curBuf s)
    unfold EdState.revertOp
    rcases hu : (EdState.curBuf s).revert with ⟨did, b⟩
    rw [hu] at hid
    cases did
    · exact ⟨rfl, fun h => by simp at h,
        fun _ => bufferRefusal_id o s b hInv hsl hloc (hid rfl)⟩
    · exact ⟨rfl, fun _ => bufferSuccess_atEnd o s b hsl, fun h => by simp at h⟩

/-- Witness for C7 at a concrete state (empty undo stack: refusal path). -/
theorem undoRedoRevert_surface_witness :
    (EdState.undoOp sampleCtx sampleCompleteEd).1 =
      ((EdState.curBuf sampleCompleteEd).undo).1 :=
  (undoRedoRevert_surface sampleCtx sampleCompleteEd (by decide) (by decide)
    (fun j hj => Option.noConfusion hj)).1.1

/-! ## C8: movement is swallowed while a completions hint is shown -/

/-- **C8.** `show_autosuggestions()` reports exactly whether a completions
hint is present, and whenever it holds, `move_cursor_left` and
`move_cursor_right` leave the cursor, the buffers and the history selection
unchanged (they only redraw), while `move_up` and `move_down` do nothing at
all — for every count and buffer state. -/
theorem completionsHintGuard (o : Ctx) (s : EdState) (n m : Nat)
    (hhint : EdState.showAutosuggestionsPred s = true)
    (hInv : CursorInv s)
    (hsl : EdState.isSearchB s = true → s.curHistoryLoc = none) :
    EdState.showAutosuggestionsPred s = s.showCompletionsHint.isSome ∧
    (EdState.moveCursorLeft o n s).cursor = s.cursor ∧
    EdState.curBuf (EdState.moveCursorLeft o n s) = EdState.curBuf s ∧
    (EdState.moveCursorLeft o n s).newBuf = s.newBuf ∧
    (EdState.moveCursorLeft o n s).history = s.history ∧
    (EdState.moveCursorLeft o n s).curHistoryLoc = s.curHistoryLoc ∧
    (EdState.moveCursorRight o m s).cursor = s.cursor ∧
    EdState.curBuf (EdState.moveCursorRight o m s) = EdState.curBuf s ∧
    (EdState.moveCursorRight o m s).newBuf = s.newBuf ∧
    (EdState.moveCursorRight o m s).history = s.history ∧
    (EdState.moveCursorRight o m s).curHistoryLoc = s.curHistoryLoc ∧
    EdState.moveUp o s = s ∧
    EdState.moveDown o s = s := by
  have hL : EdState.moveCursorLeft o n s = EdState.display o s := by
    unfold EdState.moveCursorLeft
    rw [if_pos hhint]
  have hR : EdState.moveCursorRight o m s = EdState.display o s := by
    unfold EdState.moveCursorRight
    rw [if_pos hhint]
  have hU : EdState.moveUp o s = s := by
    unfold EdState.moveUp
    rw [if_pos hhint]
  have hD : EdState.moveDown o s = s := by
    unfold EdState.moveDown
    rw [if_pos hhint]
  refine ⟨rfl, ?_, ?_, ?_, ?_, ?_, ?_, ?_, ?_, ?_, ?_, hU, hD⟩ <;>
    first
      | rw [hL]
      | rw [hR]
  · exact display_cursor_id o s hInv hsl
  · exact display_curBuf_id o s hsl
  · exact display_newBuf o s
  · exact display_history o s
  · exact display_curHistoryLoc_id o s hsl
  · exact display_cursor_id o s hInv hsl
  · exact display_curBuf_id o s hsl
  · exact display_newBuf o s
  · exact display_history o s
  · exact display_curHistoryLoc_id o s hsl

/-- Witness for C8 at the concrete hint-showing state. -/
theorem completionsHintGuard_witness :
    (EdState.moveCursorLeft sampleCtx 1 sampleCompleteEd).cursor =
      sampleCompleteEd.cursor :=
  (completionsHintGuard sampleCtx sampleCompleteEd 1 1 (by decide) (by decide)
    (by decide)).2.1

/-! ## C10: where move_up / move_down leave the cursor -/

/-- `move_cursor_to_end_of_line` sets the cursor to `num_chars`, which the
final redraw clamps to `num_chars - 1` when `no_eol` is set on a nonempty
buffer (editor.rs lines 957-960). -/
theorem endOfLineClamp_eq (o : Ctx) (x : EdState) (b : Bool)
    (hs : EdState.isSearchB x = false) (hno : x.noEol = b) :
    (EdState.moveCursorToEndOfLine o x).cursor =
      (if b = true ∧
          (EdState.curBuf (EdState.moveCursorToEndOfLine o x)).numChars ≠ 0
       then (EdState.curBuf (EdState.moveCursorToEndOfLine o x)).numChars - 1
       else (EdState.curBuf (EdState.moveCursorToEndOfLine o x)).numChars) := by
  have hsl : EdState.isSearchB x = true → x.curHistoryLoc = none := fun h =>
    absurd (hs ▸ h) (by simp)
  obtain ⟨hb, _, hcur⟩ := moveCursorToEndOfLine_state o x hsl
  rw [hcur, hb, hno]
  rfl

/-- **C10 (counterexample).** In Vi normal mode (`no_eol` set), a failed
history step from a mid-buffer cursor on `ab` leaves the cursor at
`num_chars - 1 = 1`, not at `num_chars = 2` as the claim states: the redraw
clamp of editor.rs lines 957-960 lands one short of the end. -/
theorem moveUpDown_noEol_counterexample :
    EdState.showAutosuggestionsPred sampleNoEolEd = false ∧
    EdState.isSearchB sampleNoEolEd = false ∧
    (EdState.moveUp sampleCtx sampleNoEolEd).cursor ≠
      (EdState.curBuf (EdState.moveUp sampleCtx sampleNoEolEd)).numChars ∧
    (EdState.moveUp sampleCtx sampleNoEolEd).cursor =
      (EdState.curBuf (EdState.moveUp sampleCtx sampleNoEolEd)).numChars - 1 := by
  decide

/-- **C10 (amended).** Outside search mode and with no completions hint
active, `move_up` and `move_down` always end in
`move_cursor_to_end_of_line` on the (possibly newly selected) current
buffer — even on a failed history step a mid-buffer cursor jumps to the
line's end.  The cursor lands at `num_chars`, except that the final redraw
clamps it to `num_chars - 1` when `no_eol` is set and the buffer is
nonempty. -/
theorem moveUpDown_amended (o : Ctx) (s : EdState)
    (hhint : EdState.showAutosuggestionsPred s = false)
    (hsearch : EdState.isSearchB s = false) :
    ((EdState.moveUp o s).cursor =
      if s.noEol = true ∧ (EdState.curBuf (EdState.moveUp o s)).numChars ≠ 0
      then (EdState.curBuf (EdState.moveUp o s)).numChars - 1
      else (EdState.curBuf (EdState.moveUp o s)).numChars) ∧
    ((EdState.moveDown o s).cursor =
      if s.noEol = true ∧ (EdState.curBuf (EdState.moveDown o s)).numChars ≠ 0
      then (EdState.curBuf (EdState.moveDown o s)).numChars - 1
      else (EdState.curBuf (EdState.moveDown o s)).numChars) := by
  constructor
  · unfold EdState.moveUp
    rw [if_neg (by simp [hhint]), if_neg (by simp [hsearch])]
    refine endOfLineClamp_eq o _ s.noEol ?_ ?_
    · (repeat' split) <;> (try (dsimp only; repeat' split)) <;> exact hsearch
    · (repeat' split) <;> (try (dsimp only; repeat' split)) <;> rfl
  · unfold EdState.moveDown
    rw [if_neg (by simp [hhint]), if_neg (by simp [hsearch])]
    refine endOfLineClamp_eq o _ s.noEol ?_ ?_
    · (repeat' split) <;> (try (dsimp only; repeat' split)) <;> exact hsearch
    · (repeat' split) <;> (try (dsimp only; repeat' split)) <;> rfl

/-- Witness for C10: from the mid-buffer state with `no_eol` clear, a failed
history step (empty history oracle) still jumps the cursor to the end of
the line. -/
theorem moveUpDown_amended_witness :
    (EdState.moveUp sampleCtx sampleMidEd).cursor =
      (if sampleMidEd.noEol = true ∧
          (EdState.curBuf (EdState.moveUp sampleCtx sampleMidEd)).numChars ≠ 0
       then (EdState.curBuf (EdState.moveUp sampleCtx sampleMidEd)).numChars - 1
       else (EdState.curBuf (EdState.moveUp sampleCtx sampleMidEd)).numChars) :=
  (moveUpDown_amended sampleCtx sampleMidEd (by decide) (by decide)).1

/-! ## C9: the Vi keymap maintains no_eol = (mode = Normal) -/

/-- None of the editor operations the keymap dispatches touches `no_eol`:
`clear`. -/
theorem noEol_clearOp (o : Ctx) (s : EdState) :
    (EdState.clearOp o s).noEol = s.noEol := by
  unfold EdState.clearOp
  rw [display_noEol]
  rfl

theorem noEol_moveCursorLeft (o : Ctx) (n : Nat) (s : EdState) :
    (EdState.moveCursorLeft o n s).noEol = s.noEol := by
  unfold EdState.moveCursorLeft
  split <;> exact display_noEol o _

theorem noEol_moveCursorRight (o : Ctx) (n : Nat) (s : EdState) :
    (EdState.moveCursorRight o n s).noEol = s.noEol := by
  unfold EdState.moveCursorRight
  split <;> exact display_noEol o _

theorem noEol_moveCursorToStartOfLine (o : Ctx) (s : EdState) :
    (EdState.moveCursorToStartOfLine o s).noEol = s.noEol :=
  display_noEol o _

theorem noEol_moveCursorToEndOfLine (o : Ctx) (s : EdState) :
    (EdState.moveCursorToEndOfLine o s).noEol = s.noEol :=
  display_noEol o _

theorem noEol_insertCharsAfterCursor (o : Ctx) (cs : List Char) (s : EdState) :
    (EdState.insertCharsAfterCursor o cs s).noEol = s.noEol := by
  simp only [EdState.insertCharsAfterCursor, display_noEol]
  exact setCurBuf_noEol _ _

theorem noEol_deleteBeforeCursor (o : Ctx) (s : EdState) :
    (EdState.deleteBeforeCursor o s).noEol = s.noEol := by
  simp only [EdState.deleteBeforeCursor, display_noEol]
  split
  · exact setCurBuf_noEol _ _
  · rfl

theorem noEol_deleteAfterCursor (o : Ctx) (s : EdState) :
    (EdState.deleteAfterCursor o s).noEol = s.noEol := by
  simp only [EdState.deleteAfterCursor, display_noEol]
  split
  · exact setCurBuf_noEol _ _
  · rfl

theorem noEol_deleteAllAfterCursor (o : Ctx) (s : EdState) :
    (EdState.deleteAllAfterCursor o s).noEol = s.noEol := by
  simp only [EdState.deleteAllAfterCursor, display_noEol]
  exact setCurBuf_noEol _ _

theorem noEol_deleteUntil (o : Ctx) (p : Nat) (s : EdState) :
    (EdState.deleteUntil o p s).noEol = s.noEol := by
  simp only [EdState.deleteUntil, display_noEol]
  exact setCurBuf_noEol _ _

theorem noEol_searchOp (o : Ctx) (f : Bool) (s : EdState) :
    (EdState.searchOp o f s).noEol = s.noEol := by
  simp only [EdState.searchOp, display_noEol]
  (repeat' split) <;> rfl

theorem noEol_moveUp (o : Ctx) (s : EdState) :
    (EdState.moveUp o s).noEol = s.noEol := by
  simp only [EdState.moveUp]
  split
  · rfl
  · split
    · exact noEol_searchOp o false s
    · rw [noEol_moveCursorToEndOfLine]
      (repeat' split) <;> (try (dsimp only; repeat' split)) <;> rfl

theorem noEol_moveDown (o : Ctx) (s : EdState) :
    (EdState.moveDown o s).noEol = s.noEol := by
  simp only [EdState.moveDown]
  split
  · rfl
  · split
    · exact noEol_searchOp o true s
    · rw [noEol_moveCursorToEndOfLine]
      (repeat' split) <;> (try (dsimp only; repeat' split)) <;> rfl

theorem noEol_undoOp (o : Ctx) (s : EdState) :
    (EdState.undoOp o s).2.noEol = s.noEol := by
  simp only [EdState.undoOp]
  split <;>
    simp [noEol_moveCursorToEndOfLine, display_noEol, setCurBuf_noEol]

theorem noEol_redoOp (o : Ctx) (s : EdState) :
    (EdState.redoOp o s).2.noEol = s.noEol := by
  simp only [EdState.redoOp]
  split <;>
    simp [noEol_moveCursorToEndOfLine, display_noEol, setCurBuf_noEol]

theorem noEol_undoTimes (o : Ctx) (n : Nat) (s : EdState) :
    (ViState.undoTimes o n s).noEol = s.noEol := by
  induction n generalizing s with
  | zero => rfl
  | succ n ih =>
    simp only [ViState.undoTimes]
    split
    · rw [ih]
      exact noEol_undoOp o s
    · exact noEol_undoOp o s

theorem noEol_redoTimes (o : Ctx) (n : Nat) (s : EdState) :
    (ViState.redoTimes o n s).noEol = s.noEol := by
  induction n generalizing s with
  | zero => rfl
  | succ n ih =>
    simp only [ViState.redoTimes]
    split
    · rw [ih]
      exact noEol_redoOp o s
    · exact noEol_redoOp o s

theorem noEol_replaceTimes (o : Ctx) (c : Char) (n : Nat) (s : EdState) :
    (ViState.replaceTimes o c n s).noEol = s.noEol := by
  induction n generalizing s with
  | zero => rfl
  | succ n ih =>
    simp only [ViState.replaceTimes]
    rw [ih, noEol_insertCharsAfterCursor, noEol_deleteAfterCursor]

theorem noEol_edStartUndoGroup (s : EdState) :
    (ViState.edStartUndoGroup s).noEol = s.noEol :=
  setCurBuf_noEol _ _

theorem noEol_edEndUndoGroup (s : EdState) :
    (ViState.edEndUndoGroup s).noEol = s.noEol :=
  setCurBuf_noEol _ _

/-- The invariant only reads `ed.noEol` and the mode stack, so it transfers
along any state change preserving both. -/
theorem inv9_congr {st st' : ViState} (h : Inv9 st)
    (he : st'.ed.noEol = st.ed.noEol) (hm : st'.modeStack = st.modeStack) :
    Inv9 st' := by
  unfold Inv9 at h ⊢
  rw [he, hm]
  exact h

/-- Resetting the pending count keeps the invariant. -/
theorem inv9_count0 (st : ViState) (h : Inv9 st) : Inv9 { st with count := 0 } := h

/-- `set_mode_preserve_last` re-establishes the invariant unconditionally. -/
theorem inv9_setModePreserveLast (m : Mode) (st : ViState) :
    Inv9 (ViState.setModePreserveLast m st) := by
  simp only [Inv9, ViState.setModePreserveLast]
  split
  · rw [noEol_edStartUndoGroup]
    rfl
  · rfl

/-- `set_mode` re-establishes the invariant unconditionally. -/
theorem inv9_setMode (m : Mode) (st : ViState) :
    Inv9 (ViState.setMode m st) := by
  simp only [ViState.setMode]
  split
  · exact inv9_setModePreserveLast m st
  · exact inv9_setModePreserveLast m st

/-- `pop_mode_after_movement` re-establishes the invariant unconditionally. -/
theorem inv9_popModeAfterMovement (o : Ctx) (st : ViState) :
    Inv9 (ViState.popModeAfterMovement o st) := by
  simp only [Inv9, ViState.popModeAfterMovement]
  split
  · dsimp only
    rw [noEol_deleteUntil]
  all_goals rfl

/-- `pop_mode` re-establishes the invariant unconditionally. -/
theorem inv9_popMode (st : ViState) : Inv9 (ViState.popMode st) := by
  simp only [Inv9, ViState.popMode]
  split
  · dsimp only
    rw [noEol_edEndUndoGroup]
  · rfl

/-- `normal_mode_abort` re-establishes the invariant unconditionally. -/
theorem inv9_normalModeAbort (st : ViState) :
    Inv9 (ViState.normalModeAbort st) := rfl

theorem noEol_handleKeyCommon (o : Ctx) (st : ViState) (k : Key) :
    (ViState.handleKeyCommon o st k).ed.noEol = st.ed.noEol := by
  cases k <;> simp only [ViState.handleKeyCommon] <;>
    first
      | rfl
      | exact noEol_moveCursorLeft o 1 st.ed
      | exact noEol_moveCursorRight o 1 st.ed
      | exact noEol_moveUp o st.ed
      | exact noEol_moveDown o st.ed
      | exact noEol_moveCursorToStartOfLine o st.ed
      | exact noEol_moveCursorToEndOfLine o st.ed
      | exact noEol_deleteBeforeCursor o st.ed
      | exact noEol_deleteAfterCursor o st.ed
      | (split
         · exact noEol_clearOp o st.ed
         · rfl)

theorem modeStack_handleKeyCommon (o : Ctx) (st : ViState) (k : Key) :
    (ViState.handleKeyCommon o st k).modeStack = st.modeStack := by
  cases k <;> simp only [ViState.handleKeyCommon] <;>
    first
      | rfl
      | (split <;> rfl)

/-- `handle_key_common` only touches the editor, never `no_eol` or the mode
stack, so it preserves the invariant. -/
theorem inv9_handleKeyCommon (o : Ctx) (st : ViState) (k : Key)
    (h : Inv9 st) : Inv9 (ViState.handleKeyCommon o st k) :=
  inv9_congr h (noEol_handleKeyCommon o st k) (modeStack_handleKeyCommon o st k)

/-- The `movement_reset` insert-mode preamble preserves the invariant. -/
theorem inv9_applyMovementReset (st : ViState) (h : Inv9 st) :
    Inv9 (ViState.applyMovementReset st) := by
  unfold ViState.applyMovementReset
  split
  · exact inv9_congr h
      (by dsimp only; rw [noEol_edStartUndoGroup, noEol_edEndUndoGroup]) rfl
  · exact h

/-- Dispatching a key list through an invariant-preserving handler preserves
the invariant. -/
theorem inv9_dispatchList (core : ViState → Key → Option ViState)
    (hcore : ∀ st k st', Inv9 st → core st k = some st' → Inv9 st') :
    ∀ (ks : List Key) (st st' : ViState), Inv9 st →
      ViState.dispatchList core ks st = some st' → Inv9 st' := by
  intro ks
  induction ks with
  | nil =>
    intro st st' h hd
    simp only [ViState.dispatchList, Option.some.injEq] at hd
    subst hd
    exact h
  | cons k ks ih =>
    intro st st' h hd
    simp only [ViState.dispatchList] at hd
    rcases hmid : core st k with _ | mid
    · rw [hmid] at hd
      exact absurd hd (by simp)
    · rw [hmid] at hd
      exact ih mid st' (hcore st k mid h hmid) hd

/-- The Esc-time repetition loop preserves the invariant. -/
theorem inv9_escRepeatIters (core : ViState → Key → Option ViState)
    (hcore : ∀ st k st', Inv9 st → core st k = some st' → Inv9 st') :
    ∀ (n : Nat) (st st' : ViState), Inv9 st →
      ViState.escRepeatIters core n st = some st' → Inv9 st' := by
  intro n
  induction n with
  | zero =>
    intro st st' h hd
    simp only [ViState.escRepeatIters, Option.some.injEq] at hd
    subst hd
    exact h
  | succ n ih =>
    intro st st' h hd
    simp only [ViState.escRepeatIters, Option.bind_eq_some] at hd
    obtain ⟨mid, hmid, hrest⟩ := hd
    refine ih mid st' (inv9_dispatchList core hcore _ _ _ ?_ hmid) hrest
    exact h

/-- The dot-repeat driver preserves the invariant. -/
theorem inv9_viRepeat (core : ViState → Key → Option ViState)
    (hcore : ∀ st k st', Inv9 st → core st k = some st' → Inv9 st')
    (st st' : ViState) (h : Inv9 st)
    (hd : ViState.viRepeat core st = some st') : Inv9 st' := by
  simp only [ViState.viRepeat, Option.bind_eq_some, Option.map_eq_some'] at hd
  obtain ⟨s2, ⟨s1, hs1, hs12⟩, s3, hs3, rfl⟩ := hd
  have h1 : Inv9 s1 := by
    rcases hli : st.lastInsert with _ | k
    · rw [hli] at hs1
      simp only [Option.some.injEq] at hs1
      subst hs1
      exact h
    · rw [hli] at hs1
      refine hcore _ _ _ ?_ hs1
      exact h
  have h2 : Inv9 s2 := inv9_dispatchList core hcore _ _ _ h1 hs12
  have h3 : Inv9 s3 := by
    by_cases hcase : s2.lastInsert.isSome
    · rw [if_pos hcase] at hs3
      exact hcore _ _ _ h2 hs3
    · rw [if_neg hcase] at hs3
      simp only [Option.some.injEq] at hs3
      subst hs3
      exact h2
  exact h3

/-- `handle_key_insert` preserves the invariant; in particular the Esc
branch ends in `pop_mode`, which re-establishes it whatever the count
replay did. -/
theorem inv9_handleKeyInsert (o : Ctx) (core : ViState → Key → Option ViState)
    (hcore : ∀ st k st', Inv9 st → core st k = some st' → Inv9 st')
    (st : ViState) (k : Key) (st' : ViState) (h : Inv9 st)
    (hd : ViState.handleKeyInsert o core st k = some st') : Inv9 st' := by
  cases k
  case Esc =>
    simp only [ViState.handleKeyInsert, Option.map_eq_some'] at hd
    obtain ⟨a, _, rfl⟩ := hd
    exact inv9_popMode _
  case Char c =>
    simp only [ViState.handleKeyInsert, Option.some.injEq] at hd
    subst hd
    exact inv9_congr (inv9_applyMovementReset st h)
      (by dsimp only; rw [noEol_insertCharsAfterCursor]) rfl
  case Up =>
    simp only [ViState.handleKeyInsert, Option.some.injEq] at hd
    subst hd
    exact inv9_congr h
      (by dsimp only;
          rw [noEol_edStartUndoGroup, noEol_moveUp, noEol_edEndUndoGroup]) rfl
  case Down =>
    simp only [ViState.handleKeyInsert, Option.some.injEq] at hd
    subst hd
    exact inv9_congr h
      (by dsimp only;
          rw [noEol_edStartUndoGroup, noEol_moveDown, noEol_edEndUndoGroup]) rfl
  all_goals
    simp only [ViState.handleKeyInsert, Option.some.injEq] at hd
  all_goals subst hd
  all_goals
    first
      | exact inv9_handleKeyCommon o _ _ h
      | exact inv9_handleKeyCommon o _ _ (inv9_applyMovementReset st h)

set_option maxHeartbeats 1600000 in
/-- `handle_key_normal` preserves the invariant. -/
theorem inv9_handleKeyNormal (o : Ctx) (core : ViState → Key → Option ViState)
    (hcore : ∀ st k st', Inv9 st → core st k = some st' → Inv9 st')
    (st : ViState) (k : Key) (st' : ViState) (h : Inv9 st)
    (hd : ViState.handleKeyNormal o core st k = some st') : Inv9 st' := by
  cases k
  case Char c =>
    simp only [ViState.handleKeyNormal] at hd
    by_cases h1 : c = 'i'
    · rw [if_pos h1] at hd
      injection hd with hd
      subst hd
      exact inv9_setMode _ _
    rw [if_neg h1] at hd
    by_cases h2 : c = 'a'
    · rw [if_pos h2] at hd
      injection hd with hd
      subst hd
      exact inv9_congr (inv9_setMode Mode.Insert _)
        (by dsimp only; rw [noEol_moveCursorRight]) rfl
    rw [if_neg h2] at hd
    by_cases h3 : c = 'A'
    · rw [if_pos h3] at hd
      injection hd with hd
      subst hd
      exact inv9_congr (inv9_setMode Mode.Insert _)
        (by dsimp only; rw [noEol_moveCursorToEndOfLine]) rfl
    rw [if_neg h3] at hd
    by_cases h4 : c = 'I'
    · rw [if_pos h4] at hd
      injection hd with hd
      subst hd
      exact inv9_congr (inv9_setMode Mode.Insert _)
        (by dsimp only; rw [noEol_moveCursorToStartOfLine]) rfl
    rw [if_neg h4] at hd
    by_cases h5 : c = 's'
    · rw [if_pos h5] at hd
      injection hd with hd
      subst hd
      exact inv9_congr (inv9_setMode Mode.Insert _)
        (by dsimp only; rw [noEol_deleteUntil]) rfl
    rw [if_neg h5] at hd
    by_cases h6 : c = 'r'
    · rw [if_pos h6] at hd
      injection hd with hd
      subst hd
      exact inv9_setMode _ _
    rw [if_neg h6] at hd
    by_cases h7 : c = 'd' ∨ c = 'c'
    · rw [if_pos h7] at hd
      injection hd with hd
      subst hd
      exact inv9_congr (inv9_setMode (Mode.Delete _) _) rfl rfl
    rw [if_neg h7] at hd
    by_cases h8 : c = 'D'
    · rw [if_pos h8] at hd
      injection hd with hd
      subst hd
      exact inv9_congr h (by dsimp only; rw [noEol_deleteAllAfterCursor]) rfl
    rw [if_neg h8] at hd
    by_cases h9 : c = 'C'
    · rw [if_pos h9] at hd
      injection hd with hd
      subst hd
      exact inv9_congr (inv9_setModePreserveLast Mode.Insert _)
        (by dsimp only; rw [noEol_deleteAllAfterCursor]) rfl
    rw [if_neg h9] at hd
    by_cases h10 : c = '.'
    · rw [if_pos h10] at hd
      refine inv9_viRepeat core hcore _ st' ?_ hd
      exact h
    rw [if_neg h10] at hd
    by_cases h11 : c = 'h'
    · rw [if_pos h11] at hd
      injection hd with hd
      subst hd
      exact inv9_popModeAfterMovement o _
    rw [if_neg h11] at hd
    by_cases h12 : c = 'l' ∨ c = ' '
    · rw [if_pos h12] at hd
      injection hd with hd
      subst hd
      exact inv9_popModeAfterMovement o _
    rw [if_neg h12] at hd
    by_cases h13 : c = 'k'
    · rw [if_pos h13] at hd
      injection hd with hd
      subst hd
      exact inv9_popModeAfterMovement o _
    rw [if_neg h13] at hd
    by_cases h14 : c = 'j'
    · rw [if_pos h14] at hd
      injection hd with hd
      subst hd
      exact inv9_popModeAfterMovement o _
    rw [if_neg h14] at hd
    by_cases h15 : c = '0' ∧ st.count = 0
    · rw [if_pos h15] at hd
      injection hd with hd
      subst hd
      exact inv9_popModeAfterMovement o _
    rw [if_neg h15] at hd
    by_cases h16 : '0' ≤ c ∧ c ≤ '9'
    · rw [if_pos h16] at hd
      injection hd with hd
      subst hd
      exact h
    rw [if_neg h16] at hd
    by_cases h17 : c = '$'
    · rw [if_pos h17] at hd
      injection hd with hd
      subst hd
      exact inv9_popModeAfterMovement o _
    rw [if_neg h17] at hd
    by_cases h18 : c = 'x'
    · rw [if_pos h18] at hd
      injection hd with hd
      subst hd
      exact inv9_congr h (by dsimp only; rw [noEol_deleteUntil]) rfl
    rw [if_neg h18] at hd
    by_cases h19 : c = 'u'
    · rw [if_pos h19] at hd
      injection hd with hd
      subst hd
      exact inv9_congr h (by dsimp only; rw [noEol_undoTimes]) rfl
    rw [if_neg h19] at hd
    injection hd with hd
    subst hd
    exact inv9_handleKeyCommon o st (Key.Char c) h
  case Ctrl c =>
    simp only [ViState.handleKeyNormal] at hd
    by_cases hr : c = 'r'
    · rw [if_pos hr] at hd
      injection hd with hd
      subst hd
      exact inv9_congr h (by dsimp only; rw [noEol_redoTimes]) rfl
    rw [if_neg hr] at hd
    injection hd with hd
    subst hd
    exact inv9_handleKeyCommon o st (Key.Ctrl c) h
  all_goals simp only [ViState.handleKeyNormal, Option.some.injEq] at hd
  all_goals subst hd
  all_goals
    first
      | exact h
      | exact inv9_popModeAfterMovement o _
      | exact inv9_handleKeyCommon o st _ h
      | exact inv9_congr h (by dsimp only; rw [noEol_deleteUntil]) rfl

/-- `handle_key_replace` re-establishes the invariant unconditionally: both
outcomes run through `pop_mode` or `normal_mode_abort`. -/
theorem inv9_handleKeyReplace (o : Ctx) (st : ViState) (k : Key) :
    Inv9 (ViState.handleKeyReplace o st k) := by
  simp only [ViState.handleKeyReplace]
  cases k <;>
    first
      | exact inv9_count0 _ (inv9_popMode _)
      | exact inv9_count0 _ (inv9_normalModeAbort _)

/-- `handle_key_delete_or_change` preserves the invariant, given that the
normal-mode handler it defers to does. -/
theorem inv9_handleKeyDeleteOrChange (o : Ctx)
    (normalFn : ViState → Key → Option ViState)
    (hn : ∀ st k st', Inv9 st → normalFn st k = some st' → Inv9 st')
    (st : ViState) (k : Key) (st' : ViState) (h : Inv9 st)
    (hd : ViState.handleKeyDeleteOrChange o normalFn st k = some st') :
    Inv9 st' := by
  simp only [ViState.handleKeyDeleteOrChange] at hd
  split at hd
  · exact hn _ _ _ (by exact h) hd
  · split at hd <;> (try split_ifs at hd) <;>
      first
        | exact hn _ _ _ (by exact h) hd
        | (simp only [Option.some.injEq] at hd; subst hd;
           first
             | exact inv9_popMode _
             | exact inv9_normalModeAbort _)

/-- Fueled preservation: a dispatch through `handle_key_core` that
completes within its fuel keeps the invariant. -/
theorem inv9_handleKeyCore (o : Ctx) :
    ∀ (fuel : Nat) (st : ViState) (key : Key) (st' : ViState), Inv9 st →
      ViState.handleKeyCore o fuel st key = some st' → Inv9 st' := by
  intro fuel
  induction fuel with
  | zero =>
    intro st key st' _ hd
    simp [ViState.handleKeyCore] at hd
  | succ n ih =>
    intro st key st' h hd
    simp only [ViState.handleKeyCore] at hd
    rcases hm : stackMode st.modeStack with _ | _ | _ | sp
    all_goals rw [hm] at hd
    · exact inv9_handleKeyInsert o _ ih st key st' h hd
    · exact inv9_handleKeyNormal o _ ih st key st' h hd
    · simp only [Option.some.injEq] at hd
      subst hd
      exact inv9_handleKeyReplace o st key
    · exact inv9_handleKeyDeleteOrChange o
        (ViState.handleKeyNormal o (ViState.handleKeyCore o n))
        (fun a b c hI hD =>
          inv9_handleKeyNormal o (ViState.handleKeyCore o n) ih a b c hI hD)
        st key st' h hd

/-- **C9.** The Vi keymap invariant: the editor's `no_eol` flag is true
exactly when the current mode — the top of the mode stack, Normal when the
stack is empty — is Normal.  Every key fully dispatched through
`handle_key_core`, including every mode push, pop, movement-pop and abort it
performs, re-establishes this biconditional. -/
theorem viNoEol_invariant (o : Ctx) (fuel : Nat) (st : ViState) (key : Key)
    (st' : ViState) (hInv : Inv9 st)
    (hrun : ViState.handleKeyCore o fuel st key = some st') : Inv9 st' :=
  inv9_handleKeyCore o fuel st key st' hInv hrun

/-- Witness for C9: from the Normal-mode start state (`no_eol` set), the
key `i` pushes Insert mode and clears `no_eol`, keeping the invariant. -/
theorem viNoEol_invariant_witness :
    Inv9 ((ViState.handleKeyCore sampleCtx 3 sampleViNormal
      (Key.Char 'i')).getD sampleViNormal) :=
  viNoEol_invariant sampleCtx 3 sampleViNormal (Key.Char 'i') _ (by decide)
    (by decide)

end Liner
